import Mathlib

/-!
Verification of the check-resolution engine of `nechronica-tr` (src/src/App.tsx).

The source file contains two app variants.  Variant 1 (lines 1-958) provides the
general dice machinery `parseDiceNotation` / `rollDice`; variant 2 (lines 959-1986)
provides the session engine: `outcomeText`, `doMadnessCheck`, `loseTreasure`,
`runScene`, `togglePart`, `addLog`.  Both are embedded below.

Modelling conventions:
- JS strings are Lean `String`s; character-level processing mirrors the code's
  regex on `List Char`.
- JS numbers carry IEEE-754 binary64 semantics, modelled exactly on the
  integer values the program manipulates: `Number(...)` on a digit string is
  the correctly rounded double (`roundDoubleN`, round-to-nearest ties-to-even
  to 53 significant bits) with overflow to `Infinity` — and hence the code's
  `Number.isFinite` rejection — at `2^1024 - 2^970` (`jsNumN`); the float
  addition `sum + mod` is the rounding of the exact sum (`roundDoubleZ`); the
  template `${"${mod}"}` is ECMA-262 `Number::toString`, decimal below `10^21`
  and exponential (`1e+21` style) from `10^21` on (`jsNatToString`).  ES2020+
  requires correct rounding of arbitrarily long digit strings, which is what
  `roundDoubleN` implements.
- Each call of `Math.random()` is an oracle value: for
  `Math.floor(Math.random() * m)` the oracle yields the floor value directly
  (a `Nat`, in `[0, m)` for a genuine `[0,1)` float), threaded as an explicit
  random source `rng : Nat → Nat` with a cursor for the call counter.
- React state updates (`setXxx(prev => ...)`) become explicit state passing.
  The `id`/`ts` fields of log entries (wall clock, `uid()`) are omitted; a
  character's `uid()` string id is modelled as a `Nat`.
-/

set_option exponentiation.threshold 1200
set_option maxRecDepth 8192

/-- ASCII decimal digit test, the JS regex class `\d` (code points 48-57). -/
def isDigitCh (c : Char) : Bool := 48 ≤ c.toNat && c.toNat ≤ 57

/-- JS `String.prototype.toLowerCase` restricted to ASCII: `A`-`Z` shift by 32.
(Non-ASCII case mappings never produce `d`, a digit or a sign, so they cannot
turn a rejected input into an accepted one.) -/
def jsToLower (c : Char) : Char :=
  if 65 ≤ c.toNat && c.toNat ≤ 90 then Char.ofNat (c.toNat + 32) else c

/-- The JS regex class `\s` (WhiteSpace plus LineTerminator code points). -/
def isWsCh (c : Char) : Bool :=
  let u := c.toNat
  (9 ≤ u && u ≤ 13) || u = 32 || u = 160 || u = 0x1680 ||
    (0x2000 ≤ u && u ≤ 0x200A) || u = 0x2028 || u = 0x2029 || u = 0x202F ||
    u = 0x205F || u = 0x3000 || u = 0xFEFF

/-- Embeds `inputRaw.trim().toLowerCase().replace(/\s+/g, "")` from `parseDiceNotation`
(App.tsx line 94): lower-case every character, then delete every whitespace
character (the leading `trim` is subsumed by the global replace). -/
def stripInput (l : List Char) : List Char :=
  (l.map jsToLower).filter (fun c => !isWsCh c)

/-- Value of a digit string, i.e. JS `Number` on a match of `\d+` (exact). -/
def digitsVal (l : List Char) : Nat :=
  l.foldl (fun a c => 10 * a + (c.toNat - 48)) 0

/-- The decimal digit character for `k < 10`. -/
def digitChar (k : Nat) : Char := Char.ofNat (48 + k)

/-- Decimal rendering of a natural number (JS template `${n}`), fuel-structured
so that it reduces definitionally. -/
def renderNatGo : Nat → Nat → List Char
  | 0, n => [digitChar (n % 10)]
  | fuel + 1, n =>
    if n < 10 then [digitChar n]
    else renderNatGo fuel (n / 10) ++ [digitChar (n % 10)]

/-- Decimal rendering of a natural number, most significant digit first. -/
def renderNat (n : Nat) : List Char := renderNatGo n n

/-- Bit length of a natural number (fuel-structured; exact whenever
`n ≤ fuel`): `bitLen fuel n = ⌊log2 n⌋ + 1` for `n ≥ 1`, and `0` for `0`. -/
def bitLen : Nat → Nat → Nat
  | 0, _ => 0
  | fuel + 1, n => if n = 0 then 0 else bitLen fuel (n / 2) + 1

/-- Round-to-nearest, ties-to-even selection of the significand: `q` is the
truncated significand, `r` the discarded remainder, `half` the midpoint. -/
def roundHalfEven (q r half : Nat) : Nat :=
  if half < r then q + 1
  else if r < half then q
  else if q % 2 = 0 then q else q + 1

/-- Rounding of an exact nonnegative integer to the nearest IEEE-754
binary64 value (round-to-nearest, ties-to-even), expressed on integers:
values up to `2^53` are exact; above, the value is rounded to 53 significant
bits.  No overflow cap here — callers compare against `2^1024`. -/
def roundDoubleN (v : Nat) : Nat :=
  if v ≤ 2 ^ 53 then v
  else
    let sh := bitLen v v - 53
    roundHalfEven (v / 2 ^ sh) (v % 2 ^ sh) (2 ^ (sh - 1)) * 2 ^ sh

/-- JS `Number` on a (nonnegative) exact digit value: the correctly rounded
double when finite, `none` when the rounding overflows to `Infinity`
(so `none` is exactly the case `!Number.isFinite(...)`). -/
def jsNumN (v : Nat) : Option Nat :=
  let r := roundDoubleN v
  if r < 2 ^ 1024 then some r else none

/-- Signed integer-to-double rounding (IEEE rounding is sign-symmetric);
models the binary64 addition `a + b` of exactly-representable integer
doubles via the rounding of their exact sum. -/
def roundDoubleZ (z : Int) : Int :=
  if z < 0 then -(roundDoubleN z.natAbs : Int) else (roundDoubleN z.natAbs : Int)

/-- Significand search of ECMA-262 `Number::toString` (radix 10) for an
integer double value `v`: for `k = 1, 2, ...` try the `k`-digit candidates
nearest to `v / 10^(n-k)` (plus the carry case `s = 10^(k-1)` with exponent
`n + 1`) and return the first `(k, s, n)` whose double rounds back to `v`;
among the two nearest candidates the closer one is chosen, with ties going
to the even significand (the normative text leaves the tie open; this is
what shortest-round-trip printers produce).  Returns `(k, s, e)` with
`v = 𝔽(s·10^(e-k))`. -/
def expSigSearch (v n : Nat) : Nat → Nat → Option (Nat × Nat × Nat)
  | 0, _ => none
  | fuel + 1, k =>
    let p := 10 ^ (n - k)
    let s0 := v / p
    let r := v % p
    let down := if roundDoubleN (s0 * p) = v then some (s0, n) else none
    let up :=
      if s0 + 1 < 10 ^ k then
        (if roundDoubleN ((s0 + 1) * p) = v then some (s0 + 1, n) else none)
      else
        (if roundDoubleN (10 ^ n) = v then some (10 ^ (k - 1), n + 1) else none)
    match down, up with
    | none, none => expSigSearch v n fuel (k + 1)
    | some (s, e), none => some (k, s, e)
    | none, some (s, e) => some (k, s, e)
    | some (sd, ed), some (su, eu) =>
      if 2 * r < p then some (k, sd, ed)
      else if p < 2 * r then some (k, su, eu)
      else if sd % 2 = 0 then some (k, sd, ed) else some (k, su, eu)

/-- ECMA-262 `Number::toString` exponential form for an integer double
`v ≥ 10^21`: `s₁.s₂…s_k e+ (e-1)` with the smallest possible `k`. -/
def jsExpDigits (v : Nat) : List Char :=
  let n := (renderNat v).length
  match expSigSearch v n n 1 with
  | some (_, s, e) =>
    (match renderNat s with
     | [] => []
     | [c] => [c]
     | c :: rest => c :: '.' :: rest) ++ 'e' :: '+' :: renderNat (e - 1)
  | none => renderNat v

/-- JS `String(v)` for a nonnegative integer double value: plain decimal
digits below `10^21`, exponential notation from `10^21` on
(ECMA-262 Number::toString, radix 10). -/
def jsNatToString (v : Nat) : List Char :=
  if v < 10 ^ 21 then renderNat v else jsExpDigits v

/-- The match of `/^(\d*)d(\d+)([+-]\d+)?$/i` on an (already stripped,
lower-cased) character list: returns the three capture groups
`(count digits, sides digits, modifier part)` exactly when the regex matches.
The regex is deterministic: `(\d*)` is the maximal digit run before the
mandatory `d`, `(\d+)` the maximal digit run after it, and the optional group
must start with a sign, so no backtracking ambiguity exists. -/
def parseCore (t : List Char) : Option (List Char × List Char × List Char) :=
  let cs := t.takeWhile isDigitCh
  match t.dropWhile isDigitCh with
  | [] => none
  | c :: r2 =>
    if c = 'd' then
      let ss := r2.takeWhile isDigitCh
      if ss.isEmpty then none
      else
        match r2.dropWhile isDigitCh with
        | [] => some (cs, ss, [])
        | b :: r4 =>
          if (b = '+' || b = '-') && !r4.isEmpty && r4.all isDigitCh then
            some (cs, ss, b :: r4)
          else none
    else none

/-- The structured dice specification returned by the parser
(`{ n, m, mod, norm }` in App.tsx line 93; `norm` renamed to `normText`). -/
structure DiceSpec where
  n : Nat
  m : Nat
  mod : Int
  normText : String
deriving DecidableEq, Repr

/-- The normalized textual form
`` `${n}d${sides}${mod === 0 ? "" : mod > 0 ? `+${mod}` : `${mod}`}` ``
(App.tsx line 111). -/
def renderDice (n m : Nat) (mod : Int) : List Char :=
  renderNat n ++ 'd' :: (renderNat m ++
    (if mod = 0 then []
     else if 0 < mod then '+' :: jsNatToString mod.toNat
     else '-' :: jsNatToString (-mod).toNat))

/-- The numeric value of the optional modifier group: JS
`modStr ? Number(modStr) : 0` where `modStr` is either absent or a sign
followed by digits; `none` when `Number` overflows to `Infinity`
(the `!Number.isFinite(mod)` rejection). -/
def modValF : List Char → Option Int
  | '+' :: ds => (jsNumN (digitsVal ds)).map (fun v => (v : Int))
  | '-' :: ds => (jsNumN (digitsVal ds)).map (fun v => -(v : Int))
  | _ => some 0

/-- Embeds `parseDiceNotation` (App.tsx lines 93-113), renamed `parseDice` here:
strip and lower-case the input, match the regex, read the groups as doubles
(`count` defaulting to 1, modifier to 0), reject when any of the three is not
finite (`!Number.isFinite(...)`, line 107 — the `Option` match), then validate
`1 ≤ n ≤ 200` and `2 ≤ sides ≤ 100000` (`n <= 0 || n > 200` and
`sides <= 1 || sides > 100000` are the failure conditions in the code). -/
def parseDice (inputRaw : String) : Option DiceSpec :=
  match parseCore (stripInput inputRaw.data) with
  | none => none
  | some (cs, ss, ms) =>
    match (if cs.isEmpty then some 1 else jsNumN (digitsVal cs)),
        jsNumN (digitsVal ss), modValF ms with
    | some n, some m, some mod =>
      if n = 0 || 200 < n then none
      else if m ≤ 1 || 100000 < m then none
      else some ⟨n, m, mod, String.mk (renderDice n m mod)⟩
    | _, _, _ => none

/-- The roll result (`DiceResult` in App.tsx line 10; field `notation` renamed
to `normText`). -/
structure DiceResult where
  normText : String
  rolls : List Int
  sides : Nat
  modifier : Int
  total : Int
deriving DecidableEq, Repr

/-- Embeds `rollDice` (App.tsx lines 115-132).  The i-th element of `rolls` is
`1 + Math.floor(Math.random() * m)`; the floor value is the i-th output of the
injected random source `rng` (so `rng i < m` for a genuine `Math.random`).
The code's `total = sum + parsed.mod` is a binary64 addition of two integer
doubles, i.e. the rounding of their exact sum (`roundDoubleZ`; it cannot
overflow since `sum ≤ 2·10^7` and `|mod|` is at most the largest finite
double, which rounds back down). -/
def rollDice (s : String) (rng : Nat → Nat) : Option DiceResult :=
  match parseDice s with
  | none => none
  | some p =>
    let rolls : List Int := (List.range p.n).map (fun i => 1 + (rng i : Int))
    let sum : Int := rolls.foldl (· + ·) 0
    some ⟨p.normText, rolls, p.m, p.mod, roundDoubleZ (sum + p.mod)⟩

/-- Embeds `outcomeText` (App.tsx lines 1382-1387): `die === 10` is a critical
success, `die === 1` a critical failure, otherwise compare `total` against
`target` (default 6 at every call site). -/
def outcomeText (die total target : Int) : String :=
  if die = 10 then "대성공(10)"
  else if die = 1 then "대실패(1)"
  else if target ≤ total then "성공"
  else "실패"

/-- Equipment slot state (`PartState`, App.tsx line 962). -/
inductive PartState where
  | ok
  | damaged
  | broken
deriving DecidableEq, Repr

/-- The six fixed body-part keys of `Parts` (App.tsx line 963). -/
inductive PartKey where
  | head
  | body
  | armL
  | armR
  | legL
  | legR
deriving DecidableEq, Repr

/-- Embeds `Parts = Record<"head" | "body" | "armL" | "armR" | "legL" | "legR", PartState>`. -/
structure Parts where
  head : PartState
  body : PartState
  armL : PartState
  armR : PartState
  legL : PartState
  legR : PartState
deriving DecidableEq, Repr

/-- Read one slot of the record. -/
def Parts.get (p : Parts) : PartKey → PartState
  | .head => p.head
  | .body => p.body
  | .armL => p.armL
  | .armR => p.armR
  | .legL => p.legL
  | .legR => p.legR

/-- The spread update `{ ...prev, [key]: next }`. -/
def Parts.set (p : Parts) : PartKey → PartState → Parts
  | .head, v => { p with head := v }
  | .body, v => { p with body := v }
  | .armL, v => { p with armL := v }
  | .armR, v => { p with armR := v }
  | .legL, v => { p with legL := v }
  | .legR, v => { p with legR := v }

/-- Embeds `partLabel` (App.tsx line 1055). -/
def partLabel : PartState → String
  | .ok => "정상"
  | .damaged => "손상"
  | .broken => "파괴"

/-- The raw JS string value of a `PartState` (interpolated as `(${next})`). -/
def partRaw : PartState → String
  | .ok => "ok"
  | .damaged => "damaged"
  | .broken => "broken"

/-- Embeds `prettyPartsName` (App.tsx lines 1046-1053). -/
def prettyPartsName : PartKey → String
  | .head => "머리"
  | .body => "몸통"
  | .armL => "왼팔"
  | .armR => "오른팔"
  | .legL => "왼다리"
  | .legR => "오른다리"

/-- The wrap-around successor used by the manual toggle (App.tsx line 1160):
`cur === "ok" ? "damaged" : cur === "damaged" ? "broken" : "ok"`. -/
def nextPartState : PartState → PartState
  | .ok => .damaged
  | .damaged => .broken
  | .broken => .ok

/-- Modelled from the spec: the automated part-damage path ("part-damage-roll",
spec §4.6 step 4) is absent from src/ — no code in the repository advances a
part state outside the manual `togglePart`.  Per the spec's words it "advances
its PartState by one step Ok→Damaged→Broken (saturating — a Broken part stays
Broken; this transition does not wrap back to Ok)". -/
def partDamageStep : PartState → PartState
  | .ok => .damaged
  | .damaged => .broken
  | .broken => .broken

/-- Embeds `LogKind` of variant 2 (App.tsx line 965). -/
inductive LogKind where
  | SYS
  | PART
  | DICE
  | SAVE
  | SIM
deriving DecidableEq, Repr

/-- A log entry (App.tsx line 966); the `id` (uid) and `ts` (wall clock)
fields are environment noise and are omitted. -/
structure LogEntry where
  kind : LogKind
  text : String
deriving DecidableEq, Repr

/-- Embeds `addLog` (App.tsx lines 1148-1155): append the entry, then if the list
exceeds `LIMIT = 800` entries keep only the last 800
(`next.slice(next.length - LIMIT)`). -/
def addLog (log : List LogEntry) (e : LogEntry) : List LogEntry :=
  let next := log ++ [e]
  if 800 < next.length then next.drop (next.length - 800) else next

/-- Embeds `Character` of variant 2 (App.tsx lines 993-1009), restricted to the
fields the engine reads or writes (`id`, `name`, `treasure`, `treasureCount`,
`mentalMod`, `madness`); the purely descriptive fields (`position`, `clazz`,
`reinforceType`, `reinforceDetail`, `speech`, `temperament`, `notes`) are
never consulted by `doMadnessCheck` / `loseTreasure` / `runScene` and are
omitted.  The uid string `id` is modelled as a `Nat`. -/
structure Character where
  id : Nat
  name : String
  treasure : String
  treasureCount : Int
  mentalMod : Int
  madness : Int
deriving DecidableEq, Repr

/-- Embeds `clamp` (App.tsx line 1058): `Math.max(a, Math.min(b, n))`. -/
def clamp (n a b : Int) : Int := max a (min b n)

/-- Embeds `SceneType` (App.tsx line 1011): 탐색 / 전투 / 교섭 / 공포. -/
inductive SceneType where
  | explore
  | combat
  | nego
  | horror
deriving DecidableEq, Repr

/-- The Korean display string of a `SceneType`. -/
def sceneTypeLabel : SceneType → String
  | .explore => "탐색"
  | .combat => "전투"
  | .nego => "교섭"
  | .horror => "공포"

/-- Embeds `sceneTemplates` (App.tsx lines 1359-1380); each entry is the template
with `replaceAll("{A}", c.name)` already factored out as the function
argument, since every template starts with the actor placeholder. -/
def sceneTemplates : SceneType → List (String → String)
  | .explore =>
    [fun A => A ++ "는(은) 폐허의 틈을 더듬어 단서를 찾는다.",
     fun A => A ++ "는(은) 낡은 표식을 확인하고 이동 경로를 추정한다.",
     fun A => A ++ "는(은) 주변 소리를 죽이고 위험을 가늠한다."]
  | .combat =>
    [fun A => A ++ "는(은) 반사적으로 사거리를 잡고 공격한다.",
     fun A => A ++ "는(은) 빈틈을 파고들어 상대의 균형을 무너뜨린다.",
     fun A => A ++ "는(은) 몸을 낮춰 치명상을 피한다."]
  | .nego =>
    [fun A => A ++ "는(은) 말투를 조절해 상대의 의도를 떠본다.",
     fun A => A ++ "는(은) 조건을 제시하고 반응을 관찰한다.",
     fun A => A ++ "는(은) 분위기를 장악하려 한다."]
  | .horror =>
    [fun A => A ++ "는(은) 불길한 직감을 억누르며 한 발 내딛는다.",
     fun A => A ++ "는(은) 귓가의 소음을 애써 무시한다.",
     fun A => A ++ "는(은) 손끝이 떨리는 걸 감춘다."]

/-- The engine-visible app state of variant 2: roster, parts record, session
log, and the two scene-simulation settings. -/
structure SimSt where
  characters : List Character
  parts : Parts
  log : List LogEntry
  sceneType : SceneType
  checksInScene : Int
deriving DecidableEq, Repr

/-- Embeds `togglePart` of variant 2 (App.tsx lines 1157-1165): advance the slot by
the wrap-around successor and log the change. -/
def togglePart (st : SimSt) (key : PartKey) : SimSt :=
  let cur := st.parts.get key
  let next := nextPartState cur
  { st with
    parts := st.parts.set key next,
    log := addLog st.log
      ⟨.PART, "파츠 변경: " ++ prettyPartsName key ++ " → " ++ partLabel next ++
        " (" ++ partRaw next ++ ")"⟩ }

/-- Embeds `updateChar(id, \x7b madness \x7d)` (App.tsx line 1327 as used at line 1400):
patch the madness of every roster entry whose id matches. -/
def updateCharMadness (roster : List Character) (cid : Nat) (v : Int) : List Character :=
  roster.map (fun x => if x.id = cid then { x with madness := v } else x)

/-- Embeds `updateChar(id, \x7b treasureCount, madness \x7d)` as used at line 1422. -/
def updateCharLose (roster : List Character) (cid : Nat) (tc v : Int) : List Character :=
  roster.map (fun x => if x.id = cid then { x with treasureCount := tc, madness := v } else x)

/-- Embeds `doMadnessCheck` (App.tsx lines 1389-1411).  `c` is the character object
the caller picked (possibly a stale snapshot, as in `runScene`); `live` is the
current roster (the `prev` of the functional `setCharacters` update); `die` is
the `1d10` result `1 + Math.floor(Math.random() * 10)`.  A critical success
(die 10) or an ordinary success (`total ≥ 6` and die not 1) changes nothing;
otherwise madness is bumped by 1, clamped to `[0, 10]`. -/
def doMadnessCheck (c : Character) (reason : String) (live : List Character)
    (log : List LogEntry) (die : Int) : List Character × List LogEntry :=
  let total := die + c.mentalMod
  let out := outcomeText die total 6
  let log := addLog log
    ⟨.SIM, "🧠 광기 판정(" ++ c.name ++ ") [1d10" ++
      (if 0 ≤ c.mentalMod then "+" else "") ++ toString c.mentalMod ++ "] → " ++
      toString die ++ " = " ++ toString total ++ " / " ++ out ++ " (" ++ reason ++ ")"⟩
  if die = 10 then (live, log)
  else if 6 ≤ total ∧ die ≠ 1 then (live, log)
  else
    let nextMadness := clamp (c.madness + 1) 0 10
    let live := updateCharMadness live c.id nextMadness
    let log :=
      if 0 < c.treasureCount then
        addLog log ⟨.SIM, "🧸 보물이 마음을 붙잡는다: " ++ c.treasure ++
          " (보유 " ++ toString c.treasureCount ++ ")"⟩
      else log
    let log :=
      if 10 ≤ nextMadness then
        addLog log ⟨.SIM, "💥 붕괴: " ++ c.name ++ "의 광기점이 10에 도달했다."⟩
      else log
    (live, log)

/-- Embeds `loseTreasure` (App.tsx lines 1413-1425): look the character up by id; if
it has no treasure left, only log; otherwise decrement `treasureCount` by 1
and bump madness by 1, clamped to `[0, 10]`. -/
def loseTreasure (st : SimSt) (cid : Nat) : SimSt :=
  match st.characters.find? (fun x => x.id == cid) with
  | none => st
  | some c =>
    if c.treasureCount ≤ 0 then
      let e : LogEntry := ⟨.SIM, "🧸 보물 분실 시도: " ++ c.name ++ "은(는) 이미 보물이 없다."⟩
      { st with log := addLog st.log e }
    else
      let nextCount := c.treasureCount - 1
      let nextMadness := clamp (c.madness + 1) 0 10
      let e : LogEntry := ⟨.SIM, "🧸 보물 분실: " ++ c.name ++ "의 " ++ c.treasure ++
        " (-1) → 광기점 +1 (" ++ toString nextMadness ++ "/10)"⟩
      let st' := { st with
        characters := updateCharLose st.characters cid nextCount nextMadness,
        log := addLog st.log e }
      let e' : LogEntry := ⟨.SIM, "💥 붕괴: " ++ c.name ++ "의 광기점이 10에 도달했다."⟩
      if 10 ≤ nextMadness then { st' with log := addLog st'.log e' }
      else st'

/-- Fallback for an out-of-range list access; unreachable for the index
`Math.floor(Math.random() * arr.length)` produced by a genuine `Math.random`. -/
def dummyChar : Character := ⟨0, "", "", 0, 0, 0⟩

/-- Embeds `pickOne` (App.tsx line 1089): `arr[Math.floor(Math.random() * arr.length)]`,
with `u` the oracle floor value. -/
def pickOne (arr : List α) (u : Nat) (dflt : α) : α := arr.getD u dflt

/-- One iteration of the `runScene` loop (App.tsx lines 1435-1452), acting on
`(live roster, log, rng cursor)`.  `stale` is the roster array captured by the
React closure: every pick and every madness patch is computed from it, while
updates land on the live roster. -/
def runSceneStep (stale : List Character) (t : SceneType) (rng : Nat → Nat)
    (acc : List Character × List LogEntry × Nat) : List Character × List LogEntry × Nat :=
  let live := acc.1
  let log0 := acc.2.1
  let k := acc.2.2
  let c := pickOne stale (rng k) dummyChar
  let tmpl := pickOne (sceneTemplates t) (rng (k + 1)) (fun A => A)
  let log := addLog log0 ⟨.SIM, "- " ++ tmpl c.name⟩
  if t = .horror then
    let die : Int := 1 + (rng (k + 2) : Int)
    let r := doMadnessCheck c "공포" live log die
    (r.1, r.2, k + 3)
  else
    let die : Int := 1 + (rng (k + 2) : Int)
    let out := outcomeText die (die + 0) 6
    let log' := addLog log
      ⟨.SIM, "🎲 행동 판정(" ++ c.name ++ ") 1d10 → " ++ toString die ++ " / " ++ out⟩
    if out = "실패" ∨ out = "대실패(1)" then
      let die2 : Int := 1 + (rng (k + 3) : Int)
      let r := doMadnessCheck c "실패 여파" live log' die2
      (r.1, r.2, k + 4)
    else (live, log', k + 3)

/-- The `for (let i = 0; i < count; i++)` loop of `runScene`. -/
def runSceneLoop (stale : List Character) (t : SceneType) (rng : Nat → Nat) :
    Nat → (List Character × List LogEntry × Nat) → List Character × List LogEntry × Nat
  | 0, acc => acc
  | i + 1, acc => runSceneLoop stale t rng i (runSceneStep stale t rng acc)

/-- Embeds `runScene` (App.tsx lines 1427-1455).  With an empty roster it only logs
the failure line and returns; otherwise it runs `clamp(checksInScene, 1, 10)`
check iterations.  The returned `Nat` is the advanced rng cursor. -/
def runScene (st : SimSt) (rng : Nat → Nat) (k : Nat) : SimSt × Nat :=
  if st.characters.isEmpty then
    ({ st with log := addLog st.log ⟨.SIM, "씬 진행 실패: 캐릭터가 없어."⟩ }, k)
  else
    let count := (clamp st.checksInScene 1 10).toNat
    let log := addLog st.log
      ⟨.SIM, "🎬 씬 시작: " ++ sceneTypeLabel st.sceneType ++ " / 판정 " ++
        toString count ++ "회"⟩
    let r := runSceneLoop st.characters st.sceneType rng count (st.characters, log, k)
    let e : LogEntry := ⟨.SIM, "✅ 씬 종료: " ++ sceneTypeLabel st.sceneType⟩
    ({ st with characters := r.1, log := addLog r.2.1 e }, r.2.2)

/-- One externally triggered engine operation: a scene advancement with its
random source, a treasure loss for a given character id, or a single madness
check for a given character id with its die oracle. -/
inductive EngineOp where
  | scene (rng : Nat → Nat) (k : Nat)
  | lose (cid : Nat)
  | mcheck (cid : Nat) (reason : String) (die : Int)

/-- Apply one engine operation to the app state. -/
def applyOp (st : SimSt) : EngineOp → SimSt
  | .scene rng k => (runScene st rng k).1
  | .lose cid => loseTreasure st cid
  | .mcheck cid reason die =>
    match st.characters.find? (fun x => x.id == cid) with
    | none => st
    | some c =>
      let r := doMadnessCheck c reason st.characters st.log die
      { st with characters := r.1, log := r.2 }

/-- Apply a sequence of engine operations. -/
def applyOps (st : SimSt) (ops : List EngineOp) : SimSt := ops.foldl applyOp st

/-- Every member of a roster has madness in `[0, 10]`. -/
def RosterOK (l : List Character) : Prop := ∀ c ∈ l, 0 ≤ c.madness ∧ c.madness ≤ 10

instance (l : List Character) : Decidable (RosterOK l) := List.decidableBAll _ l

/-- Every roster member's madness lies in `[0, 10]`. -/
def MadOK (st : SimSt) : Prop := RosterOK st.characters

instance (st : SimSt) : Decidable (MadOK st) := inferInstanceAs (Decidable (RosterOK _))

/-- The spec's description of accepted dice text (spec §4.1 / claim C2),
stated independently of the parser: after whitespace stripping and
case-folding the text decomposes as `[count]d<sides>[(+|-)modifier]` with
`1 ≤ count ≤ 200` (count defaulting to 1 when its digit group is empty) and
`2 ≤ sides ≤ 100000`. -/
def specDiceGrammar (s : String) : Prop :=
  ∃ cs ss ms : List Char,
    stripInput s.data = cs ++ 'd' :: (ss ++ ms) ∧
    (∀ c ∈ cs, isDigitCh c = true) ∧
    ss ≠ [] ∧ (∀ c ∈ ss, isDigitCh c = true) ∧
    (ms = [] ∨ ∃ b ds, (b = '+' ∨ b = '-') ∧ ds ≠ [] ∧
      (∀ c ∈ ds, isDigitCh c = true) ∧ ms = b :: ds) ∧
    1 ≤ (if cs = [] then 1 else digitsVal cs) ∧
    (if cs = [] then 1 else digitsVal cs) ≤ 200 ∧
    2 ≤ digitsVal ss ∧ digitsVal ss ≤ 100000

/-- The corrected acceptance condition (amended claim C2): the grammar and
range conditions of `specDiceGrammar`, plus the one the code's
`Number.isFinite` guard adds — the modifier's digit value must stay below
the IEEE-754 binary64 overflow threshold `2^1024 - 2^970` (everything from
that value on rounds to `Infinity`). -/
def specDiceGrammarFin (s : String) : Prop :=
  ∃ cs ss ms : List Char,
    stripInput s.data = cs ++ 'd' :: (ss ++ ms) ∧
    (∀ c ∈ cs, isDigitCh c = true) ∧
    ss ≠ [] ∧ (∀ c ∈ ss, isDigitCh c = true) ∧
    (ms = [] ∨ ∃ b ds, (b = '+' ∨ b = '-') ∧ ds ≠ [] ∧
      (∀ c ∈ ds, isDigitCh c = true) ∧ ms = b :: ds ∧
      digitsVal ds < 2 ^ 1024 - 2 ^ 970) ∧
    1 ≤ (if cs = [] then 1 else digitsVal cs) ∧
    (if cs = [] then 1 else digitsVal cs) ≤ 200 ∧
    2 ≤ digitsVal ss ∧ digitsVal ss ≤ 100000

/-! ## Helper lemmas -/

theorem takeWhile_all (p : Char → Bool) (xs : List Char)
    (hxs : ∀ c ∈ xs, p c = true) : xs.takeWhile p = xs := by
  induction xs with
  | nil => rfl
  | cons a xs ih =>
    have ha : p a = true := hxs a (by simp)
    simp only [List.takeWhile_cons, ha, if_true]
    rw [ih (fun c hc => hxs c (by simp [hc]))]

theorem dropWhile_all (p : Char → Bool) (xs : List Char)
    (hxs : ∀ c ∈ xs, p c = true) : xs.dropWhile p = [] := by
  induction xs with
  | nil => rfl
  | cons a xs ih =>
    have ha : p a = true := hxs a (by simp)
    simp only [List.dropWhile_cons, ha, if_true]
    exact ih (fun c hc => hxs c (by simp [hc]))

theorem takeWhile_all_append (p : Char → Bool) (xs zs : List Char) (b : Char)
    (hxs : ∀ c ∈ xs, p c = true) (hb : p b = false) :
    (xs ++ b :: zs).takeWhile p = xs := by
  induction xs with
  | nil => simp [List.takeWhile_cons, hb]
  | cons a xs ih =>
    have ha : p a = true := hxs a (by simp)
    simp only [List.cons_append, List.takeWhile_cons, ha, if_true]
    rw [ih (fun c hc => hxs c (by simp [hc]))]

theorem dropWhile_all_append (p : Char → Bool) (xs zs : List Char) (b : Char)
    (hxs : ∀ c ∈ xs, p c = true) (hb : p b = false) :
    (xs ++ b :: zs).dropWhile p = b :: zs := by
  induction xs with
  | nil => simp [List.dropWhile_cons, hb]
  | cons a xs ih =>
    have ha : p a = true := hxs a (by simp)
    simp only [List.cons_append, List.dropWhile_cons, ha, if_true]
    exact ih (fun c hc => hxs c (by simp [hc]))

theorem digitChar_toNat (k : Nat) (h : k < 10) : (digitChar k).toNat = 48 + k := by
  interval_cases k <;> decide

theorem digitChar_isDigit (k : Nat) (h : k < 10) : isDigitCh (digitChar k) = true := by
  interval_cases k <;> decide

theorem digitsVal_append_digit (xs : List Char) (c : Char) :
    digitsVal (xs ++ [c]) = 10 * digitsVal xs + (c.toNat - 48) := by
  simp [digitsVal, List.foldl_append]

theorem renderNatGo_spec (fuel : Nat) : ∀ n, n ≤ fuel →
    digitsVal (renderNatGo fuel n) = n ∧
    (∀ c ∈ renderNatGo fuel n, isDigitCh c = true) ∧
    renderNatGo fuel n ≠ [] := by
  induction fuel with
  | zero =>
    intro n hn
    have : n = 0 := Nat.le_zero.mp hn
    subst this
    refine ⟨by decide, ?_, by decide⟩
    intro c hc
    simp only [renderNatGo] at hc
    simp only [List.mem_singleton] at hc
    subst hc
    decide
  | succ fuel ih =>
    intro n hn
    by_cases h10 : n < 10
    · simp only [renderNatGo, h10, if_true]
      refine ⟨?_, ?_, by simp⟩
      · simp [digitsVal, digitChar_toNat n h10]
      · intro c hc
        simp only [List.mem_singleton] at hc
        subst hc
        exact digitChar_isDigit n h10
    · have hdiv : n / 10 ≤ fuel := by
        have := Nat.div_lt_self (by omega : 0 < n) (by omega : 1 < 10)
        omega
      obtain ⟨hval, hdig, hne⟩ := ih (n / 10) hdiv
      simp only [renderNatGo, h10, if_false]
      refine ⟨?_, ?_, by simp⟩
      · rw [digitsVal_append_digit, hval, digitChar_toNat (n % 10) (Nat.mod_lt n (by omega))]
        omega
      · intro c hc
        rw [List.mem_append] at hc
        rcases hc with hc | hc
        · exact hdig c hc
        · simp only [List.mem_singleton] at hc
          subst hc
          exact digitChar_isDigit (n % 10) (Nat.mod_lt n (by omega))

theorem renderNat_val (n : Nat) : digitsVal (renderNat n) = n :=
  (renderNatGo_spec n n le_rfl).1

theorem renderNat_digits (n : Nat) : ∀ c ∈ renderNat n, isDigitCh c = true :=
  (renderNatGo_spec n n le_rfl).2.1

theorem renderNat_ne_nil (n : Nat) : renderNat n ≠ [] :=
  (renderNatGo_spec n n le_rfl).2.2

theorem good_fix (c : Char) (h : isDigitCh c = true ∨ c = 'd' ∨ c = '+' ∨ c = '-') :
    jsToLower c = c ∧ isWsCh c = false := by
  rcases h with h | rfl | rfl | rfl
  · simp only [isDigitCh, Bool.and_eq_true, decide_eq_true_eq] at h
    constructor
    · simp only [jsToLower]
      rw [if_neg]
      simp only [Bool.and_eq_true, decide_eq_true_eq, not_and]
      omega
    · simp only [isWsCh]
      simp only [Bool.or_eq_false_iff, Bool.and_eq_false_iff,
        decide_eq_false_iff_not, decide_eq_true_eq]
      omega
  · decide
  · decide
  · decide

theorem stripInput_fix (l : List Char)
    (h : ∀ c ∈ l, isDigitCh c = true ∨ c = 'd' ∨ c = '+' ∨ c = '-') :
    stripInput l = l := by
  induction l with
  | nil => rfl
  | cons a l ih =>
    obtain ⟨hlow, hws⟩ := good_fix a (h a (by simp))
    simp only [stripInput, List.map_cons, List.filter_cons, hlow, hws,
      Bool.not_false, if_true]
    have := ih (fun c hc => h c (by simp [hc]))
    simp only [stripInput] at this
    rw [this]

theorem parseCore_sound (t cs ss ms : List Char)
    (h : parseCore t = some (cs, ss, ms)) :
    t = cs ++ 'd' :: (ss ++ ms) ∧
    (∀ c ∈ cs, isDigitCh c = true) ∧
    ss ≠ [] ∧ (∀ c ∈ ss, isDigitCh c = true) ∧
    (ms = [] ∨ ∃ b ds, (b = '+' ∨ b = '-') ∧ ds ≠ [] ∧
      (∀ c ∈ ds, isDigitCh c = true) ∧ ms = b :: ds) := by
  have ht := (List.takeWhile_append_dropWhile isDigitCh t).symm
  simp only [parseCore] at h
  cases hdrop : List.dropWhile isDigitCh t with
  | nil =>
    rw [hdrop] at h
    exact absurd h (by simp)
  | cons c r2 =>
    rw [hdrop] at h
    dsimp only at h
    by_cases hc : c = 'd'
    case neg =>
      rw [if_neg hc] at h
      exact absurd h (by simp)
    rw [if_pos hc] at h
    subst hc
    have hr2 := (List.takeWhile_append_dropWhile isDigitCh r2).symm
    by_cases he : (List.takeWhile isDigitCh r2).isEmpty = true
    · rw [if_pos he] at h
      exact absurd h (by simp)
    rw [if_neg he] at h
    cases hdrop2 : List.dropWhile isDigitCh r2 with
    | nil =>
      rw [hdrop2] at h
      simp only [Option.some.injEq, Prod.mk.injEq] at h
      obtain ⟨rfl, rfl, rfl⟩ := h
      rw [hdrop2, List.append_nil] at hr2
      refine ⟨?_, fun c hc => List.mem_takeWhile_imp hc, ?_,
        fun c hc => List.mem_takeWhile_imp hc, Or.inl rfl⟩
      · rw [List.append_nil, ← hr2, ← hdrop]
        exact ht
      · exact fun hnil => he (by rw [hnil]; rfl)
    | cons b r4 =>
      rw [hdrop2] at h
      dsimp only at h
      by_cases hg : ((b = '+' || b = '-') && !r4.isEmpty && r4.all isDigitCh) = true
      case neg =>
        rw [if_neg hg] at h
        exact absurd h (by simp)
      rw [if_pos hg] at h
      simp only [Option.some.injEq, Prod.mk.injEq] at h
      obtain ⟨rfl, rfl, rfl⟩ := h
      rw [hdrop2] at hr2
      simp only [Bool.and_eq_true, Bool.or_eq_true, decide_eq_true_eq,
        Bool.not_eq_true'] at hg
      obtain ⟨⟨hb, hr4ne⟩, hr4d⟩ := hg
      refine ⟨?_, fun c hc => List.mem_takeWhile_imp hc, ?_,
        fun c hc => List.mem_takeWhile_imp hc,
        Or.inr ⟨b, r4, hb, ?_, fun c hc => (List.all_eq_true.mp hr4d) c hc, rfl⟩⟩
      · rw [← hr2, ← hdrop]
        exact ht
      · exact fun hnil => he (by rw [hnil]; rfl)
      · intro hnil
        rw [hnil] at hr4ne
        simp at hr4ne

theorem parseCore_complete (cs ss ms : List Char)
    (hcs : ∀ c ∈ cs, isDigitCh c = true)
    (hss : ss ≠ []) (hssd : ∀ c ∈ ss, isDigitCh c = true)
    (hms : ms = [] ∨ ∃ b ds, (b = '+' ∨ b = '-') ∧ ds ≠ [] ∧
      (∀ c ∈ ds, isDigitCh c = true) ∧ ms = b :: ds) :
    parseCore (cs ++ 'd' :: (ss ++ ms)) = some (cs, ss, ms) := by
  have hd : isDigitCh 'd' = false := by decide
  have htw : (cs ++ 'd' :: (ss ++ ms)).takeWhile isDigitCh = cs :=
    takeWhile_all_append isDigitCh cs (ss ++ ms) 'd' hcs hd
  have hdw : (cs ++ 'd' :: (ss ++ ms)).dropWhile isDigitCh = 'd' :: (ss ++ ms) :=
    dropWhile_all_append isDigitCh cs (ss ++ ms) 'd' hcs hd
  have hssE : ss.isEmpty = false := by
    cases ss with
    | nil => exact absurd rfl hss
    | cons a l => rfl
  rcases hms with rfl | ⟨b, ds, hb, hds, hdsd, rfl⟩
  · have htw2 : (ss ++ ([] : List Char)).takeWhile isDigitCh = ss := by
      rw [List.append_nil]
      exact takeWhile_all isDigitCh ss hssd
    have hdw2 : (ss ++ ([] : List Char)).dropWhile isDigitCh = [] := by
      rw [List.append_nil]
      exact dropWhile_all isDigitCh ss hssd
    simp only [parseCore, hdw]
    rw [if_pos trivial, htw2, hdw2, htw]
    simp [hssE]
  · have hbnd : isDigitCh b = false := by
      rcases hb with rfl | rfl <;> decide
    have htw2 : (ss ++ b :: ds).takeWhile isDigitCh = ss :=
      takeWhile_all_append isDigitCh ss ds b hssd hbnd
    have hdw2 : (ss ++ b :: ds).dropWhile isDigitCh = b :: ds :=
      dropWhile_all_append isDigitCh ss ds b hssd hbnd
    have hdsE : ds.isEmpty = false := by
      cases ds with
      | nil => exact absurd rfl hds
      | cons a l => rfl
    have hguard : ((b = '+' || b = '-') && !ds.isEmpty && ds.all isDigitCh) = true := by
      rw [hdsE]
      rw [List.all_eq_true.mpr hdsd]
      rcases hb with rfl | rfl <;> decide
    simp only [parseCore, hdw]
    rw [if_pos trivial, htw2, hdw2, htw]
    simp only [hssE, Bool.false_eq_true, if_false]
    rw [if_pos hguard]

theorem bitLen_zero (fuel : Nat) : bitLen fuel 0 = 0 := by
  cases fuel <;> rfl

theorem bitLen_spec (fuel : Nat) : ∀ n, n ≤ fuel → 1 ≤ n →
    1 ≤ bitLen fuel n ∧ 2 ^ (bitLen fuel n - 1) ≤ n ∧ n < 2 ^ bitLen fuel n := by
  induction fuel with
  | zero =>
    intro n hn h1
    omega
  | succ fuel ih =>
    intro n hn h1
    simp only [bitLen]
    rw [if_neg (by omega)]
    by_cases h2 : n / 2 = 0
    · have hn1 : n = 1 := by omega
      subst hn1
      norm_num [bitLen_zero]
    · have hd : n / 2 ≤ fuel := by omega
      obtain ⟨hL1, hlo, hhi⟩ := ih (n / 2) hd (by omega)
      refine ⟨by omega, ?_, ?_⟩
      · rw [Nat.add_sub_cancel]
        have hL : bitLen fuel (n / 2) - 1 + 1 = bitLen fuel (n / 2) := by omega
        have h2p : 2 ^ (bitLen fuel (n / 2) - 1 + 1) =
            2 ^ (bitLen fuel (n / 2) - 1) * 2 := Nat.pow_succ ..
        rw [← hL]
        omega
      · have h2p : 2 ^ (bitLen fuel (n / 2) + 1) =
            2 ^ bitLen fuel (n / 2) * 2 := Nat.pow_succ ..
        omega

theorem bitLen_unique (n a b : Nat) (ha1 : 2 ^ (a - 1) ≤ n) (ha2 : n < 2 ^ a)
    (hb1 : 2 ^ (b - 1) ≤ n) (hb2 : n < 2 ^ b) (ha : 1 ≤ a) (hb : 1 ≤ b) : a = b := by
  by_contra hne
  rcases Nat.lt_or_ge a b with h | h
  · have : 2 ^ a ≤ 2 ^ (b - 1) := Nat.pow_le_pow_right (by omega) (by omega)
    omega
  · have : 2 ^ b ≤ 2 ^ (a - 1) := Nat.pow_le_pow_right (by omega) (by omega)
    omega

theorem bitLen_eq (n b : Nat) (h1 : 1 ≤ b) (hlo : 2 ^ (b - 1) ≤ n) (hhi : n < 2 ^ b) :
    bitLen n n = b := by
  have hpos : 0 < 2 ^ (b - 1) := Nat.pow_pos (by omega)
  obtain ⟨hc1, hc2, hc3⟩ := bitLen_spec n n le_rfl (by omega)
  exact bitLen_unique n _ b hc2 hc3 hlo hhi hc1 h1

theorem roundHalfEven_le (q r half : Nat) :
    q ≤ roundHalfEven q r half ∧ roundHalfEven q r half ≤ q + 1 := by
  unfold roundHalfEven
  split
  · omega
  split
  · omega
  split <;> omega

theorem roundHalfEven_eq_q (q r half : Nat) (h : r < half) :
    roundHalfEven q r half = q := by
  unfold roundHalfEven
  rw [if_neg (by omega), if_pos h]

theorem roundHalfEven_odd_up (q r half : Nat) (hq : q % 2 = 1) (h : half ≤ r) :
    roundHalfEven q r half = q + 1 := by
  unfold roundHalfEven
  by_cases h1 : half < r
  · rw [if_pos h1]
  · rw [if_neg h1, if_neg (by omega), if_neg (by omega)]

theorem roundDoubleN_small (v : Nat) (h : v ≤ 2 ^ 53) : roundDoubleN v = v := by
  unfold roundDoubleN
  rw [if_pos h]

theorem roundDoubleN_big_eq (v : Nat) (h : 2 ^ 53 < v) :
    roundDoubleN v = roundHalfEven (v / 2 ^ (bitLen v v - 53)) (v % 2 ^ (bitLen v v - 53))
      (2 ^ (bitLen v v - 53 - 1)) * 2 ^ (bitLen v v - 53) := by
  unfold roundDoubleN
  rw [if_neg (by omega)]

theorem roundDoubleN_ge (v : Nat) (h : 2 ^ 53 < v) : 2 ^ 53 ≤ roundDoubleN v := by
  rw [roundDoubleN_big_eq v h]
  have hv1 : 1 ≤ v := by
    have : 0 < 2 ^ 53 := Nat.pow_pos (by omega)
    omega
  obtain ⟨hb1, hlo, hhi⟩ := bitLen_spec v v le_rfl hv1
  have hb54 : 54 ≤ bitLen v v := by
    by_contra hc
    have : 2 ^ bitLen v v ≤ 2 ^ 53 := Nat.pow_le_pow_right (by omega) (by omega)
    omega
  have hq : 2 ^ 52 ≤ v / 2 ^ (bitLen v v - 53) := by
    rw [Nat.le_div_iff_mul_le (Nat.pow_pos (by omega))]
    have he : 2 ^ 52 * 2 ^ (bitLen v v - 53) = 2 ^ (bitLen v v - 1) := by
      rw [← Nat.pow_add]
      congr 1
      omega
    omega
  have hle := (roundHalfEven_le (v / 2 ^ (bitLen v v - 53)) (v % 2 ^ (bitLen v v - 53))
    (2 ^ (bitLen v v - 53 - 1))).1
  have hstep : 2 ^ 53 ≤ 2 ^ 52 * 2 ^ (bitLen v v - 53) := by
    rw [← Nat.pow_add]
    exact Nat.pow_le_pow_right (by omega) (by omega)
  calc 2 ^ 53 ≤ 2 ^ 52 * 2 ^ (bitLen v v - 53) := hstep
    _ ≤ (v / 2 ^ (bitLen v v - 53)) * 2 ^ (bitLen v v - 53) :=
        Nat.mul_le_mul_right _ hq
    _ ≤ roundHalfEven (v / 2 ^ (bitLen v v - 53)) (v % 2 ^ (bitLen v v - 53))
        (2 ^ (bitLen v v - 53 - 1)) * 2 ^ (bitLen v v - 53) :=
        Nat.mul_le_mul_right _ hle

theorem roundDoubleN_lt_iff (v : Nat) :
    roundDoubleN v < 2 ^ 1024 ↔ v < 2 ^ 1024 - 2 ^ 970 := by
  by_cases hs : v ≤ 2 ^ 53
  · rw [roundDoubleN_small v hs]
    have c1 : (2:Nat) ^ 53 < 2 ^ 1024 - 2 ^ 970 := by norm_num
    have c2 : (2:Nat) ^ 53 < 2 ^ 1024 := by norm_num
    omega
  push_neg at hs
  rw [roundDoubleN_big_eq v hs]
  have hv1 : 1 ≤ v := by
    have : 0 < 2 ^ 53 := Nat.pow_pos (by omega)
    omega
  obtain ⟨hb1, hlo, hhi⟩ := bitLen_spec v v le_rfl hv1
  have hb54 : 54 ≤ bitLen v v := by
    by_contra hc
    have : 2 ^ bitLen v v ≤ 2 ^ 53 := Nat.pow_le_pow_right (by omega) (by omega)
    omega
  set b := bitLen v v with hbdef
  have hpair := roundHalfEven_le (v / 2 ^ (b - 53)) (v % 2 ^ (b - 53)) (2 ^ (b - 53 - 1))
  have hqlt : v / 2 ^ (b - 53) < 2 ^ 53 := by
    rw [Nat.div_lt_iff_lt_mul (Nat.pow_pos (by omega))]
    have he : 2 ^ 53 * 2 ^ (b - 53) = 2 ^ b := by
      rw [← Nat.pow_add]
      congr 1
      omega
    omega
  have hqge : 2 ^ 52 ≤ v / 2 ^ (b - 53) := by
    rw [Nat.le_div_iff_mul_le (Nat.pow_pos (by omega))]
    have he : 2 ^ 52 * 2 ^ (b - 53) = 2 ^ (b - 1) := by
      rw [← Nat.pow_add]
      congr 1
      omega
    omega
  rcases Nat.lt_trichotomy b 1024 with hb | hb | hb
  · have hround : roundHalfEven (v / 2 ^ (b - 53)) (v % 2 ^ (b - 53))
        (2 ^ (b - 53 - 1)) * 2 ^ (b - 53) ≤ 2 ^ b := by
      have h1 : roundHalfEven (v / 2 ^ (b - 53)) (v % 2 ^ (b - 53)) (2 ^ (b - 53 - 1))
          ≤ 2 ^ 53 := by omega
      calc roundHalfEven (v / 2 ^ (b - 53)) (v % 2 ^ (b - 53)) (2 ^ (b - 53 - 1)) *
          2 ^ (b - 53) ≤ 2 ^ 53 * 2 ^ (b - 53) := Nat.mul_le_mul_right _ h1
        _ = 2 ^ b := by
            rw [← Nat.pow_add]
            congr 1
            omega
    have hble : 2 ^ b ≤ 2 ^ 1023 := Nat.pow_le_pow_right (by omega) (by omega)
    have c1 : (2:Nat) ^ 1023 < 2 ^ 1024 - 2 ^ 970 := by norm_num
    omega
  · rw [hb] at hpair hqlt hqge ⊢
    have h52 : (2:Nat) ^ 52 = 4503599627370496 := by norm_num
    have h53 : (2:Nat) ^ 53 = 9007199254740992 := by norm_num
    have e970 : (2:Nat) ^ (1024 - 53 - 1) = 9979201547673599058281863565184192830337256302177287707512736212186059459344820328924789827463178505446712234220962476219862189941967968303695858991424157101600028364755428382587688607221814935913266783722719619966654052275604351944444276342240220787535604534378780208211792476151720049639424 := by norm_num
    have e971 : (2:Nat) ^ (1024 - 53) = 19958403095347198116563727130368385660674512604354575415025472424372118918689640657849579654926357010893424468441924952439724379883935936607391717982848314203200056729510856765175377214443629871826533567445439239933308104551208703888888552684480441575071209068757560416423584952303440099278848 := by norm_num
    have e1024 : (2:Nat) ^ 1024 = 179769313486231590772930519078902473361797697894230657273430081157732675805500963132708477322407536021120113879871393357658789768814416622492847430639474124377767893424865485276302219601246094119453082952085005768838150682342462881473913110540827237163350510684586298239947245938479716304835356329624224137216 := by norm_num
    have eT : (2:Nat) ^ 1024 - 2 ^ 970 = 179769313486231580793728971405303415079934132710037826936173778980444968292764750946649017977587207096330286416692887910946555547851940402630657488671505820681908902000708383676273854845817711531764475730270069855571366959622842914819860834936475292719074168444365510704342711559699508093042880177904174497792 := by norm_num
    rw [h52] at hqge
    rw [h53] at hqlt
    rw [eT, e1024]
    rw [e970, e971] at hpair ⊢
    rw [e971] at hqlt hqge
    by_cases hqtop : v / 19958403095347198116563727130368385660674512604354575415025472424372118918689640657849579654926357010893424468441924952439724379883935936607391717982848314203200056729510856765175377214443629871826533567445439239933308104551208703888888552684480441575071209068757560416423584952303440099278848 = 9007199254740991
    · by_cases hr : v % 19958403095347198116563727130368385660674512604354575415025472424372118918689640657849579654926357010893424468441924952439724379883935936607391717982848314203200056729510856765175377214443629871826533567445439239933308104551208703888888552684480441575071209068757560416423584952303440099278848 < 9979201547673599058281863565184192830337256302177287707512736212186059459344820328924789827463178505446712234220962476219862189941967968303695858991424157101600028364755428382587688607221814935913266783722719619966654052275604351944444276342240220787535604534378780208211792476151720049639424
      · rw [roundHalfEven_eq_q _ _ _ hr]
        omega
      · rw [roundHalfEven_odd_up _ _ _ (by omega) (by omega)]
        omega
    · omega
  · have hvge : 2 ^ 1024 ≤ v := by
      have h1 : (2:Nat) ^ 1024 ≤ 2 ^ (b - 1) := Nat.pow_le_pow_right (by omega) (by omega)
      omega
    have hround : 2 ^ 1024 ≤ roundHalfEven (v / 2 ^ (b - 53)) (v % 2 ^ (b - 53))
        (2 ^ (b - 53 - 1)) * 2 ^ (b - 53) := by
      calc (2:Nat) ^ 1024 ≤ 2 ^ (b - 1) := Nat.pow_le_pow_right (by omega) (by omega)
        _ = 2 ^ 52 * 2 ^ (b - 53) := by
            rw [← Nat.pow_add]
            congr 1
            omega
        _ ≤ (v / 2 ^ (b - 53)) * 2 ^ (b - 53) := Nat.mul_le_mul_right _ hqge
        _ ≤ roundHalfEven (v / 2 ^ (b - 53)) (v % 2 ^ (b - 53))
            (2 ^ (b - 53 - 1)) * 2 ^ (b - 53) := Nat.mul_le_mul_right _ hpair.1
    omega

theorem roundDoubleN_rep (w sh : Nat) (h1 : 2 ^ 52 ≤ w) (h2 : w ≤ 2 ^ 53) (hsh : 1 ≤ sh) :
    roundDoubleN (w * 2 ^ sh) = w * 2 ^ sh := by
  by_cases hsmall : w * 2 ^ sh ≤ 2 ^ 53
  · exact roundDoubleN_small _ hsmall
  push_neg at hsmall
  rw [roundDoubleN_big_eq _ hsmall]
  by_cases hq : w < 2 ^ 53
  · have hlob : 2 ^ (53 + sh - 1) ≤ w * 2 ^ sh := by
      have he : 2 ^ (53 + sh - 1) = 2 ^ 52 * 2 ^ sh := by
        rw [← Nat.pow_add]
        congr 1
        omega
      rw [he]
      exact Nat.mul_le_mul_right _ h1
    have hhib : w * 2 ^ sh < 2 ^ (53 + sh) := by
      have he : 2 ^ (53 + sh) = 2 ^ 53 * 2 ^ sh := by
        rw [← Nat.pow_add]
      rw [he]
      exact (Nat.mul_lt_mul_right (Nat.pow_pos (by omega))).mpr hq
    rw [bitLen_eq (w * 2 ^ sh) (53 + sh) (by omega) hlob hhib]
    have hshe : 53 + sh - 53 = sh := by omega
    rw [hshe, Nat.mul_div_cancel _ (Nat.pow_pos (by omega)), Nat.mul_mod_left,
      roundHalfEven_eq_q _ _ _ (Nat.pow_pos (by omega))]
  · have hw : w = 2 ^ 53 := by omega
    subst hw
    have hval : 2 ^ 53 * 2 ^ sh = 2 ^ (53 + sh) := (Nat.pow_add 2 53 sh).symm
    rw [hval] at hsmall ⊢
    have hlob : 2 ^ (54 + sh - 1) ≤ 2 ^ (53 + sh) :=
      Nat.pow_le_pow_right (by omega) (by omega)
    have hhib : (2:Nat) ^ (53 + sh) < 2 ^ (54 + sh) :=
      Nat.pow_lt_pow_right (by omega) (by omega)
    rw [bitLen_eq (2 ^ (53 + sh)) (54 + sh) (by omega) hlob hhib]
    have hshe : 54 + sh - 53 = sh + 1 := by omega
    rw [hshe]
    have hsplit53 : 2 ^ (53 + sh) = 2 ^ 52 * 2 ^ (sh + 1) := by
      rw [← Nat.pow_add]
      congr 1
      omega
    have hdiv : 2 ^ (53 + sh) / 2 ^ (sh + 1) = 2 ^ 52 := by
      rw [hsplit53]
      exact Nat.mul_div_cancel _ (Nat.pow_pos (by omega))
    have hmod : 2 ^ (53 + sh) % 2 ^ (sh + 1) = 0 := by
      rw [hsplit53]
      exact Nat.mul_mod_left _ _
    rw [hdiv, hmod, roundHalfEven_eq_q _ _ _ (Nat.pow_pos (by omega)), ← Nat.pow_add]
    congr 1
    omega

theorem roundDoubleN_fix (v : Nat) : roundDoubleN (roundDoubleN v) = roundDoubleN v := by
  by_cases hs : v ≤ 2 ^ 53
  · rw [roundDoubleN_small v hs, roundDoubleN_small v hs]
  push_neg at hs
  have hv1 : 1 ≤ v := by
    have : 0 < 2 ^ 53 := Nat.pow_pos (by omega)
    omega
  obtain ⟨hb1, hlo, hhi⟩ := bitLen_spec v v le_rfl hv1
  have hb54 : 54 ≤ bitLen v v := by
    by_contra hc
    have : 2 ^ bitLen v v ≤ 2 ^ 53 := Nat.pow_le_pow_right (by omega) (by omega)
    omega
  rw [roundDoubleN_big_eq v hs]
  set b := bitLen v v with hbdef
  have hpair := roundHalfEven_le (v / 2 ^ (b - 53)) (v % 2 ^ (b - 53)) (2 ^ (b - 53 - 1))
  have hqlt : v / 2 ^ (b - 53) < 2 ^ 53 := by
    rw [Nat.div_lt_iff_lt_mul (Nat.pow_pos (by omega))]
    have he : 2 ^ 53 * 2 ^ (b - 53) = 2 ^ b := by
      rw [← Nat.pow_add]
      congr 1
      omega
    omega
  have hqge : 2 ^ 52 ≤ v / 2 ^ (b - 53) := by
    rw [Nat.le_div_iff_mul_le (Nat.pow_pos (by omega))]
    have he : 2 ^ 52 * 2 ^ (b - 53) = 2 ^ (b - 1) := by
      rw [← Nat.pow_add]
      congr 1
      omega
    omega
  exact roundDoubleN_rep _ _ (by omega) (by omega) (by omega)

theorem jsNumN_small (v : Nat) (h : v ≤ 2 ^ 53) : jsNumN v = some v := by
  unfold jsNumN
  rw [roundDoubleN_small v h, if_pos]
  have : (2:Nat) ^ 53 < 2 ^ 1024 := by norm_num
  omega

theorem jsNumN_inv (v n : Nat) (h : jsNumN v = some n) :
    roundDoubleN v = n ∧ n < 2 ^ 1024 := by
  unfold jsNumN at h
  by_cases hlt : roundDoubleN v < 2 ^ 1024
  · rw [if_pos hlt] at h
    injection h with h
    exact ⟨h, h ▸ hlt⟩
  · rw [if_neg hlt] at h
    exact absurd h (by simp)

theorem jsNumN_fix (v n : Nat) (h : jsNumN v = some n) : jsNumN n = some n := by
  obtain ⟨h1, h2⟩ := jsNumN_inv v n h
  unfold jsNumN
  rw [← h1, roundDoubleN_fix, h1, if_pos h2]

theorem jsNumN_isSome_iff (v : Nat) :
    (jsNumN v).isSome ↔ v < 2 ^ 1024 - 2 ^ 970 := by
  unfold jsNumN
  rw [← roundDoubleN_lt_iff]
  by_cases h : roundDoubleN v < 2 ^ 1024
  · rw [if_pos h]
    simpa using h
  · rw [if_neg h]
    simpa using h

theorem roundDoubleZ_small (z : Int) (h : z.natAbs ≤ 2 ^ 53) : roundDoubleZ z = z := by
  unfold roundDoubleZ
  rw [roundDoubleN_small _ h]
  by_cases hz : z < 0
  · rw [if_pos hz]
    omega
  · rw [if_neg hz]
    omega

theorem jsNumN_count_iff (v : Nat) :
    (∃ n, jsNumN v = some n ∧ 1 ≤ n ∧ n ≤ 200) ↔ (1 ≤ v ∧ v ≤ 200) := by
  constructor
  · rintro ⟨n, hn, h1, h2⟩
    obtain ⟨hr, _⟩ := jsNumN_inv v n hn
    by_cases hs : v ≤ 2 ^ 53
    · rw [roundDoubleN_small v hs] at hr
      omega
    · push_neg at hs
      have hge := roundDoubleN_ge v hs
      have c : (200:Nat) < 2 ^ 53 := by norm_num
      omega
  · rintro ⟨h1, h2⟩
    have hs : v ≤ 2 ^ 53 := by
      have c : (200:Nat) < 2 ^ 53 := by norm_num
      omega
    exact ⟨v, jsNumN_small v hs, h1, h2⟩

theorem jsNumN_sides_iff (v : Nat) :
    (∃ m, jsNumN v = some m ∧ 2 ≤ m ∧ m ≤ 100000) ↔ (2 ≤ v ∧ v ≤ 100000) := by
  constructor
  · rintro ⟨m, hm, h1, h2⟩
    obtain ⟨hr, _⟩ := jsNumN_inv v m hm
    by_cases hs : v ≤ 2 ^ 53
    · rw [roundDoubleN_small v hs] at hr
      omega
    · push_neg at hs
      have hge := roundDoubleN_ge v hs
      have c : (100000:Nat) < 2 ^ 53 := by norm_num
      omega
  · rintro ⟨h1, h2⟩
    have hs : v ≤ 2 ^ 53 := by
      have c : (100000:Nat) < 2 ^ 53 := by norm_num
      omega
    exact ⟨v, jsNumN_small v hs, h1, h2⟩

theorem count_ite (cs : List Char) :
    (if cs.isEmpty then 1 else digitsVal cs) = (if cs = [] then 1 else digitsVal cs) := by
  cases cs <;> simp

theorem renderNat_isEmpty (n : Nat) : (renderNat n).isEmpty = false := by
  cases hrn : renderNat n with
  | nil => exact absurd hrn (renderNat_ne_nil n)
  | cons a l => rfl

theorem jsNatToString_small (v : Nat) (h : v < 10 ^ 21) :
    jsNatToString v = renderNat v := by
  unfold jsNatToString
  rw [if_pos h]

theorem parseDice_inv (s : String) (p : DiceSpec) (h : parseDice s = some p) :
    ∃ cs ss ms, parseCore (stripInput s.data) = some (cs, ss, ms) ∧
      (if cs.isEmpty then some 1 else jsNumN (digitsVal cs)) = some p.n ∧
      jsNumN (digitsVal ss) = some p.m ∧
      modValF ms = some p.mod ∧
      p.normText = String.mk (renderDice p.n p.m p.mod) ∧
      1 ≤ p.n ∧ p.n ≤ 200 ∧ 2 ≤ p.m ∧ p.m ≤ 100000 := by
  unfold parseDice at h
  cases hc : parseCore (stripInput s.data) with
  | none =>
    rw [hc] at h
    exact absurd h (by simp)
  | some g =>
    obtain ⟨cs, ss, ms⟩ := g
    rw [hc] at h
    dsimp only at h
    cases hn : (if cs.isEmpty then some 1 else jsNumN (digitsVal cs)) with
    | none =>
      rw [hn] at h
      simp at h
    | some n =>
      rw [hn] at h
      cases hm : jsNumN (digitsVal ss) with
      | none =>
        rw [hm] at h
        simp at h
      | some m =>
        rw [hm] at h
        cases hmod : modValF ms with
        | none =>
          rw [hmod] at h
          simp at h
        | some mod =>
          rw [hmod] at h
          dsimp only at h
          by_cases h1 : (n = 0 || 200 < n) = true
          · rw [if_pos h1] at h
            exact absurd h (by simp)
          rw [if_neg h1] at h
          by_cases h2 : (m ≤ 1 || 100000 < m) = true
          · rw [if_pos h2] at h
            exact absurd h (by simp)
          rw [if_neg h2] at h
          injection h with h
          subst h
          simp only [Bool.or_eq_true, decide_eq_true_eq, not_or] at h1 h2
          refine ⟨cs, ss, ms, rfl, hn, hm, hmod, rfl, ?_, ?_, ?_, ?_⟩
          all_goals
            dsimp only
            omega

theorem parseDice_mk (s : String) (cs ss ms : List Char) (n m : Nat) (mod : Int)
    (hc : parseCore (stripInput s.data) = some (cs, ss, ms))
    (hn : (if cs.isEmpty then some 1 else jsNumN (digitsVal cs)) = some n)
    (hm : jsNumN (digitsVal ss) = some m)
    (hmod : modValF ms = some mod)
    (hn1 : 1 ≤ n) (hn2 : n ≤ 200) (hm1 : 2 ≤ m) (hm2 : m ≤ 100000) :
    parseDice s = some ⟨n, m, mod, String.mk (renderDice n m mod)⟩ := by
  unfold parseDice
  rw [hc]
  dsimp only
  rw [hn, hm, hmod]
  dsimp only
  have hc1 : ¬((n = 0 || 200 < n) = true) := by
    simp only [Bool.or_eq_true, decide_eq_true_eq, not_or]
    constructor <;> omega
  have hc2 : ¬((m ≤ 1 || 100000 < m) = true) := by
    simp only [Bool.or_eq_true, decide_eq_true_eq, not_or]
    constructor <;> omega
  rw [if_neg hc1, if_neg hc2]

theorem renderDice_good (n m : Nat) (mod : Int) (hsm : mod.natAbs < 10 ^ 21) :
    ∀ c ∈ renderDice n m mod, isDigitCh c = true ∨ c = 'd' ∨ c = '+' ∨ c = '-' := by
  intro c hc
  unfold renderDice at hc
  rw [List.mem_append] at hc
  rcases hc with hc | hc
  · exact Or.inl (renderNat_digits n c hc)
  rw [List.mem_cons] at hc
  rcases hc with rfl | hc
  · exact Or.inr (Or.inl rfl)
  rw [List.mem_append] at hc
  rcases hc with hc | hc
  · exact Or.inl (renderNat_digits m c hc)
  by_cases h0 : mod = 0
  · rw [if_pos h0] at hc
    simp at hc
  rw [if_neg h0] at hc
  by_cases hp : 0 < mod
  · rw [if_pos hp, jsNatToString_small _ (by omega), List.mem_cons] at hc
    rcases hc with rfl | hc
    · exact Or.inr (Or.inr (Or.inl rfl))
    · exact Or.inl (renderNat_digits _ c hc)
  · rw [if_neg hp, jsNatToString_small _ (by omega), List.mem_cons] at hc
    rcases hc with rfl | hc
    · exact Or.inr (Or.inr (Or.inr rfl))
    · exact Or.inl (renderNat_digits _ c hc)

theorem parseCore_renderDice (n m : Nat) (mod : Int) (hsm : mod.natAbs < 10 ^ 21) :
    parseCore (renderDice n m mod) = some (renderNat n, renderNat m,
      if mod = 0 then [] else if 0 < mod then '+' :: jsNatToString mod.toNat
      else '-' :: jsNatToString (-mod).toNat) := by
  unfold renderDice
  apply parseCore_complete
  · exact renderNat_digits n
  · exact renderNat_ne_nil m
  · exact renderNat_digits m
  · by_cases h0 : mod = 0
    · rw [if_pos h0]
      exact Or.inl rfl
    rw [if_neg h0]
    by_cases hp : 0 < mod
    · rw [if_pos hp, jsNatToString_small _ (by omega)]
      exact Or.inr ⟨'+', renderNat mod.toNat, Or.inl rfl, renderNat_ne_nil _,
        renderNat_digits _, rfl⟩
    · rw [if_neg hp, jsNatToString_small _ (by omega)]
      exact Or.inr ⟨'-', renderNat (-mod).toNat, Or.inr rfl, renderNat_ne_nil _,
        renderNat_digits _, rfl⟩

theorem modValF_renderDice (mod : Int) (hsm : mod.natAbs < 10 ^ 21)
    (hfix : jsNumN mod.natAbs = some mod.natAbs) :
    modValF (if mod = 0 then [] else if 0 < mod then '+' :: jsNatToString mod.toNat
      else '-' :: jsNatToString (-mod).toNat) = some mod := by
  by_cases h0 : mod = 0
  · rw [if_pos h0, h0]
    rfl
  rw [if_neg h0]
  by_cases hp : 0 < mod
  · rw [if_pos hp, jsNatToString_small _ (by omega)]
    show (jsNumN (digitsVal (renderNat mod.toNat))).map (fun v => (v : Int)) = some mod
    rw [renderNat_val]
    have he : mod.toNat = mod.natAbs := by omega
    rw [he, hfix]
    show some ((mod.natAbs : Int)) = some mod
    congr 1
    omega
  · rw [if_neg hp, jsNatToString_small _ (by omega)]
    show (jsNumN (digitsVal (renderNat (-mod).toNat))).map (fun v => -(v : Int)) = some mod
    rw [renderNat_val]
    have he : (-mod).toNat = mod.natAbs := by omega
    rw [he, hfix]
    show some (-(mod.natAbs : Int)) = some mod
    congr 1
    omega

theorem parseDice_renderDice (n m : Nat) (mod : Int)
    (hn1 : 1 ≤ n) (hn2 : n ≤ 200) (hm1 : 2 ≤ m) (hm2 : m ≤ 100000)
    (hsm : mod.natAbs < 10 ^ 21) (hfix : jsNumN mod.natAbs = some mod.natAbs) :
    parseDice (String.mk (renderDice n m mod)) =
      some ⟨n, m, mod, String.mk (renderDice n m mod)⟩ := by
  have hstrip : stripInput (String.mk (renderDice n m mod)).data = renderDice n m mod :=
    stripInput_fix _ (renderDice_good n m mod hsm)
  have hcore : parseCore (stripInput (String.mk (renderDice n m mod)).data) =
      some (renderNat n, renderNat m,
        if mod = 0 then [] else if 0 < mod then '+' :: jsNatToString mod.toNat
        else '-' :: jsNatToString (-mod).toNat) := by
    rw [hstrip]
    exact parseCore_renderDice n m mod hsm
  have hcount : (if (renderNat n).isEmpty then some 1
      else jsNumN (digitsVal (renderNat n))) = some n := by
    rw [renderNat_isEmpty]
    simp only [Bool.false_eq_true, if_false]
    rw [renderNat_val]
    refine jsNumN_small n ?_
    have c : (200:Nat) < 2 ^ 53 := by norm_num
    omega
  have hsides : jsNumN (digitsVal (renderNat m)) = some m := by
    rw [renderNat_val]
    refine jsNumN_small m ?_
    have c : (100000:Nat) < 2 ^ 53 := by norm_num
    omega
  exact parseDice_mk _ _ _ _ n m mod hcore hcount hsides
    (modValF_renderDice mod hsm hfix) hn1 hn2 hm1 hm2

theorem clamp_mem (x : Int) : 0 ≤ clamp x 0 10 ∧ clamp x 0 10 ≤ 10 := by
  unfold clamp
  omega

theorem rosterOK_updateCharMadness (l : List Character) (cid : Nat) (v : Int)
    (h : RosterOK l) (hv : 0 ≤ v ∧ v ≤ 10) : RosterOK (updateCharMadness l cid v) := by
  intro c hc
  unfold updateCharMadness at hc
  rw [List.mem_map] at hc
  obtain ⟨x, hx, rfl⟩ := hc
  by_cases hid : x.id = cid
  · rw [if_pos hid]
    exact hv
  · rw [if_neg hid]
    exact h x hx

theorem rosterOK_updateCharLose (l : List Character) (cid : Nat) (tc v : Int)
    (h : RosterOK l) (hv : 0 ≤ v ∧ v ≤ 10) : RosterOK (updateCharLose l cid tc v) := by
  intro c hc
  unfold updateCharLose at hc
  rw [List.mem_map] at hc
  obtain ⟨x, hx, rfl⟩ := hc
  by_cases hid : x.id = cid
  · rw [if_pos hid]
    exact hv
  · rw [if_neg hid]
    exact h x hx

theorem rosterOK_doMadnessCheck (c : Character) (reason : String)
    (live : List Character) (log : List LogEntry) (die : Int)
    (h : RosterOK live) : RosterOK (doMadnessCheck c reason live log die).1 := by
  unfold doMadnessCheck
  dsimp only
  by_cases h10 : die = 10
  · rw [if_pos h10]
    exact h
  rw [if_neg h10]
  by_cases hs : 6 ≤ die + c.mentalMod ∧ die ≠ 1
  · rw [if_pos hs]
    exact h
  rw [if_neg hs]
  exact rosterOK_updateCharMadness _ _ _ h (clamp_mem _)

theorem rosterOK_runSceneStep (stale : List Character) (t : SceneType) (rng : Nat → Nat)
    (acc : List Character × List LogEntry × Nat) (h : RosterOK acc.1) :
    RosterOK (runSceneStep stale t rng acc).1 := by
  unfold runSceneStep
  dsimp only
  by_cases ht : t = .horror
  · rw [if_pos ht]
    exact rosterOK_doMadnessCheck _ _ _ _ _ h
  · rw [if_neg ht]
    split
    · exact rosterOK_doMadnessCheck _ _ _ _ _ h
    · exact h

theorem rosterOK_runSceneLoop (stale : List Character) (t : SceneType) (rng : Nat → Nat) :
    ∀ (count : Nat) (acc : List Character × List LogEntry × Nat),
      RosterOK acc.1 → RosterOK (runSceneLoop stale t rng count acc).1 := by
  intro count
  induction count with
  | zero => exact fun acc h => h
  | succ i ih => exact fun acc h => ih _ (rosterOK_runSceneStep stale t rng acc h)

theorem madOK_runScene (st : SimSt) (rng : Nat → Nat) (k : Nat) (h : MadOK st) :
    MadOK (runScene st rng k).1 := by
  unfold runScene
  by_cases he : st.characters.isEmpty = true
  · rw [if_pos he]
    exact h
  · rw [if_neg he]
    exact rosterOK_runSceneLoop st.characters st.sceneType rng _ (st.characters, _, k) h

theorem madOK_loseTreasure (st : SimSt) (cid : Nat) (h : MadOK st) :
    MadOK (loseTreasure st cid) := by
  unfold loseTreasure
  cases hf : st.characters.find? (fun x => x.id == cid) with
  | none => exact h
  | some c =>
    dsimp only
    by_cases htc : c.treasureCount ≤ 0
    · rw [if_pos htc]
      exact h
    · rw [if_neg htc]
      by_cases hnm : 10 ≤ clamp (c.madness + 1) 0 10
      · rw [if_pos hnm]
        exact rosterOK_updateCharLose _ _ _ _ h (clamp_mem _)
      · rw [if_neg hnm]
        exact rosterOK_updateCharLose _ _ _ _ h (clamp_mem _)

theorem madOK_applyOp (st : SimSt) (op : EngineOp) (h : MadOK st) :
    MadOK (applyOp st op) := by
  cases op with
  | scene rng k => exact madOK_runScene st rng k h
  | lose cid => exact madOK_loseTreasure st cid h
  | mcheck cid reason die =>
    unfold applyOp
    dsimp only
    cases hf : st.characters.find? (fun x => x.id == cid) with
    | none => exact h
    | some c => exact rosterOK_doMadnessCheck _ _ _ _ _ h

theorem find?_updateCharLose (roster : List Character) (cid : Nat) (tc v : Int) :
    (updateCharLose roster cid tc v).find? (fun x => x.id == cid) =
      (roster.find? (fun x => x.id == cid)).map
        (fun x => if x.id = cid then { x with treasureCount := tc, madness := v } else x) := by
  unfold updateCharLose
  rw [List.find?_map]
  congr 1
  congr 1
  funext x
  by_cases hx : x.id = cid
  · simp [Function.comp, hx]
  · simp [Function.comp, hx]

theorem clamp_eq_min (m : Int) (h : 0 ≤ m) : clamp (m + 1) 0 10 = min (m + 1) 10 := by
  unfold clamp
  omega

theorem Parts.get_set_same (p : Parts) (k : PartKey) (v : PartState) :
    (p.set k v).get k = v := by
  cases k <;> rfl

theorem Parts.get_set_other (p : Parts) (k k' : PartKey) (v : PartState) (h : k' ≠ k) :
    (p.set k v).get k' = p.get k' := by
  cases k <;> cases k' <;> first | rfl | exact absurd rfl h

theorem nextPartState_cycle (s : PartState) :
    nextPartState (nextPartState (nextPartState s)) = s := by
  cases s <;> rfl

/-! ## Claims -/

/-- C1 counterexample.  The claim says every value in `5 ≤ v ≤ 7` is graded
`PartialSuccess`, i.e. 5 and 7 receive the same grade.  At the call sites
(`total = die`, `target = 6`) the code grades 5 as `실패` (failure) and 7 as
`성공` (success) — two different grades, so no renaming of the four outcome
strings can satisfy the claimed tier boundaries. -/
theorem C1_counterexample :
    outcomeText 5 5 6 = "실패" ∧ outcomeText 7 7 6 = "성공" ∧
    outcomeText 5 5 6 ≠ outcomeText 7 7 6 :=
  ⟨rfl, rfl, by decide⟩

/-- C1 (amended): `outcomeText`, as invoked with `total = v` and `target = 6`,
is a total pure function on `[1, 10]` with tiers `v = 10 →` critical success
(`대성공(10)`), `6 ≤ v ≤ 9 →` success (`성공`), `2 ≤ v ≤ 5 →` failure
(`실패`), `v = 1 →` critical failure (`대실패(1)`). -/
theorem C1_outcome_grades (v : Int) (h1 : 1 ≤ v) (h2 : v ≤ 10) :
    ((outcomeText v v 6 = "대성공(10)") ↔ v = 10) ∧
    ((outcomeText v v 6 = "대실패(1)") ↔ v = 1) ∧
    ((outcomeText v v 6 = "성공") ↔ (6 ≤ v ∧ v ≤ 9)) ∧
    ((outcomeText v v 6 = "실패") ↔ (2 ≤ v ∧ v ≤ 5)) := by
  interval_cases v <;> decide

/-- Witness for C1 at `v = 7`: graded `성공`. -/
theorem C1_outcome_grades_witness :
    ((outcomeText 7 7 6 = "대성공(10)") ↔ (7 : Int) = 10) ∧
    ((outcomeText 7 7 6 = "대실패(1)") ↔ (7 : Int) = 1) ∧
    ((outcomeText 7 7 6 = "성공") ↔ (6 ≤ (7 : Int) ∧ (7 : Int) ≤ 9)) ∧
    ((outcomeText 7 7 6 = "실패") ↔ (2 ≤ (7 : Int) ∧ (7 : Int) ≤ 5)) :=
  C1_outcome_grades 7 (by decide) (by decide)

/-- C2 counterexample.  The claim's acceptance condition — the parser
succeeds exactly when the stripped, case-folded text matches
`[count]d<sides>[(+|-)modifier]` with the two range checks — misses the
code's `!Number.isFinite(mod)` guard (App.tsx line 107): `1d6+` followed by
309 nines matches that grammar, yet `Number("9…9")` with 309 nines exceeds
the binary64 overflow threshold `2^1024 - 2^970` and is `Infinity`, so
`parseDiceNotation` returns `null`. -/
theorem C2_counterexample :
    specDiceGrammar (String.mk ('1' :: 'd' :: '6' :: '+' :: List.replicate 309 '9')) ∧
    parseDice (String.mk ('1' :: 'd' :: '6' :: '+' :: List.replicate 309 '9')) = none := by
  constructor
  · refine ⟨['1'], ['6'], '+' :: List.replicate 309 '9', ?_, by decide, by decide,
      by decide, Or.inr ⟨'+', List.replicate 309 '9', Or.inl rfl, ?_, ?_, rfl⟩,
      by decide, by decide, by decide, by decide⟩
    · exact stripInput_fix _ (by
        intro c hc
        rw [List.mem_cons, List.mem_cons, List.mem_cons, List.mem_cons] at hc
        rcases hc with rfl | rfl | rfl | rfl | hc
        · exact Or.inl (by decide)
        · exact Or.inr (Or.inl rfl)
        · exact Or.inl (by decide)
        · exact Or.inr (Or.inr (Or.inl rfl))
        · rw [List.eq_of_mem_replicate hc]
          exact Or.inl (by decide))
    · simp
    · intro c hc
      rw [List.eq_of_mem_replicate hc]
      decide
  · rfl

/-- C2 (amended): for every input string the dice parser succeeds exactly
when, after whitespace stripping and case folding, the text matches
`[count]d<sides>[(+|-)modifier]` with `1 ≤ count ≤ 200`,
`2 ≤ sides ≤ 100000` and the modifier's digit value below the binary64
overflow threshold `2^1024 - 2^970` (the code's `Number.isFinite` guard; an
omitted count defaults to 1, an omitted modifier to 0); in particular `0d6`
and `1d1` fail and `d10` parses as count 1, sides 10, modifier 0. -/
theorem C2_parse_iff_grammar :
    (∀ s : String, (parseDice s).isSome ↔ specDiceGrammarFin s) ∧
    parseDice "0d6" = none ∧ parseDice "1d1" = none ∧
    parseDice "d10" = some ⟨1, 10, 0, "1d10"⟩ := by
  refine ⟨fun s => ⟨?_, ?_⟩, rfl, rfl, rfl⟩
  · intro h
    obtain ⟨p, hp⟩ := Option.isSome_iff_exists.mp h
    obtain ⟨cs, ss, ms, hc, hn, hm, hmod, hpeq, hn1, hn2, hm1, hm2⟩ := parseDice_inv s p hp
    obtain ⟨hsplit, hcsd, hssne, hssd, hmsd⟩ := parseCore_sound _ _ _ _ hc
    have hcount : 1 ≤ (if cs = [] then 1 else digitsVal cs) ∧
        (if cs = [] then 1 else digitsVal cs) ≤ 200 := by
      by_cases hce : cs = []
      · rw [if_pos hce]
        omega
      · have hne : cs.isEmpty = false := by
          cases cs with
          | nil => exact absurd rfl hce
          | cons a l => rfl
        rw [hne] at hn
        simp only [Bool.false_eq_true, if_false] at hn
        rw [if_neg hce]
        exact (jsNumN_count_iff (digitsVal cs)).mp ⟨p.n, hn, hn1, hn2⟩
    have hsides := (jsNumN_sides_iff (digitsVal ss)).mp ⟨p.m, hm, hm1, hm2⟩
    refine ⟨cs, ss, ms, hsplit, hcsd, hssne, hssd, ?_,
      hcount.1, hcount.2, hsides.1, hsides.2⟩
    rcases hmsd with rfl | ⟨b, ds, hb, hdne, hdd, rfl⟩
    · exact Or.inl rfl
    refine Or.inr ⟨b, ds, hb, hdne, hdd, rfl, ?_⟩
    rw [← jsNumN_isSome_iff]
    rcases hb with rfl | rfl
    · have hmv : (jsNumN (digitsVal ds)).map (fun v => (v : Int)) = some p.mod := hmod
      cases hjs : jsNumN (digitsVal ds) with
      | none =>
        rw [hjs] at hmv
        exact absurd hmv (by simp)
      | some w => rfl
    · have hmv : (jsNumN (digitsVal ds)).map (fun v => -(v : Int)) = some p.mod := hmod
      cases hjs : jsNumN (digitsVal ds) with
      | none =>
        rw [hjs] at hmv
        exact absurd hmv (by simp)
      | some w => rfl
  · rintro ⟨cs, ss, ms, hsplit, hcsd, hssne, hssd, hmsd, hn1, hn2, hm1, hm2⟩
    have hmsd' : ms = [] ∨ ∃ b ds, (b = '+' ∨ b = '-') ∧ ds ≠ [] ∧
        (∀ c ∈ ds, isDigitCh c = true) ∧ ms = b :: ds := by
      rcases hmsd with rfl | ⟨b, ds, hb, hdne, hdd, rfl, hfin⟩
      · exact Or.inl rfl
      · exact Or.inr ⟨b, ds, hb, hdne, hdd, rfl⟩
    have hc : parseCore (stripInput s.data) = some (cs, ss, ms) := by
      rw [hsplit]
      exact parseCore_complete cs ss ms hcsd hssne hssd hmsd'
    have hn : (if cs.isEmpty then some 1 else jsNumN (digitsVal cs)) =
        some (if cs = [] then 1 else digitsVal cs) := by
      by_cases hce : cs = []
      · subst hce
        rfl
      · have hne : cs.isEmpty = false := by
          cases cs with
          | nil => exact absurd rfl hce
          | cons a l => rfl
        rw [if_neg hce] at hn2 ⊢
        rw [hne]
        simp only [Bool.false_eq_true, if_false]
        refine jsNumN_small _ ?_
        have c : (200 : Nat) < 2 ^ 53 := by norm_num
        omega
    have hm : jsNumN (digitsVal ss) = some (digitsVal ss) := by
      refine jsNumN_small _ ?_
      have c : (100000 : Nat) < 2 ^ 53 := by norm_num
      omega
    have hmodex : ∃ mod : Int, modValF ms = some mod := by
      rcases hmsd with rfl | ⟨b, ds, hb, hdne, hdd, rfl, hfin⟩
      · exact ⟨0, rfl⟩
      · have hjs : (jsNumN (digitsVal ds)).isSome = true := (jsNumN_isSome_iff _).mpr hfin
        obtain ⟨w, hw⟩ := Option.isSome_iff_exists.mp hjs
        rcases hb with rfl | rfl
        · refine ⟨(w : Int), ?_⟩
          show (jsNumN (digitsVal ds)).map (fun v => (v : Int)) = some ((w : Nat) : Int)
          rw [hw]
          rfl
        · refine ⟨-(w : Int), ?_⟩
          show (jsNumN (digitsVal ds)).map (fun v => -(v : Int)) = some (-((w : Nat) : Int))
          rw [hw]
          rfl
    obtain ⟨mod, hmod⟩ := hmodex
    rw [parseDice_mk s cs ss ms _ _ mod hc hn hm hmod hn1 hn2 hm1 hm2]
    rfl

/-- C3 counterexample.  The claim says `total` equals the exact sum of the
rolls plus the modifier, but the code's `total = sum + parsed.mod` is a
binary64 addition: for `2d6+10000000000000000` with mocked draws `[2, 3]`
(dice 3 and 4) the exact value `10000000000000007` is odd and lies above
`2^53`, where consecutive doubles are 2 apart, so it rounds (ties-to-even)
to `10000000000000008`. -/
theorem C3_counterexample :
    rollDice "2d6+10000000000000000" (fun i => [2, 3].getD i 0) =
      some ⟨"2d6+10000000000000000", [3, 4], 6,
        10000000000000000, 10000000000000008⟩ ∧
    ([3, 4] : List Int).foldl (· + ·) 0 + 10000000000000000 =
      10000000000000007 := by
  exact ⟨rfl, rfl⟩

/-- C3 (amended): for every notation string accepted by the parser and every
random source whose first `count` draws are genuine (each `< sides`),
`rollDice` returns a result whose `rolls` has exactly `count` entries in draw
order, each in `[1, sides]`, and whose `total` is the binary64 rounding of
the sum of the rolls plus the modifier — equal to the exact sum whenever that
sum's magnitude is at most `2^53`. -/
theorem C3_roll_shape (s : String) (p : DiceSpec) (rng : Nat → Nat)
    (hp : parseDice s = some p) (hr : ∀ i, i < p.n → rng i < p.m) :
    ∃ r, rollDice s rng = some r ∧
      r.rolls.length = p.n ∧
      (∀ i : Nat, ∀ hi : i < r.rolls.length, r.rolls.get ⟨i, hi⟩ = 1 + (rng i : Int)) ∧
      (∀ x ∈ r.rolls, 1 ≤ x ∧ x ≤ (p.m : Int)) ∧
      r.total = roundDoubleZ (r.rolls.foldl (· + ·) 0 + p.mod) ∧
      ((r.rolls.foldl (· + ·) 0 + p.mod).natAbs ≤ 2 ^ 53 →
        r.total = r.rolls.foldl (· + ·) 0 + p.mod) ∧
      r.modifier = p.mod ∧ r.sides = p.m ∧ r.normText = p.normText := by
  unfold rollDice
  rw [hp]
  refine ⟨_, rfl, by simp, ?_, ?_, rfl, ?_, rfl, rfl, rfl⟩
  · intro i hi
    simp only [List.get_eq_getElem, List.getElem_map, List.getElem_range]
  · intro x hx
    simp only [List.mem_map, List.mem_range] at hx
    obtain ⟨i, hi, rfl⟩ := hx
    have := hr i hi
    constructor <;> omega
  · intro hsm
    exact roundDoubleZ_small _ hsm

/-- Witness for C3 on `2d6+1` with the mocked draw sequence `[2, 4]`
(floor values, i.e. dice 3 and 5). -/
theorem C3_roll_shape_witness :
    ∃ r, rollDice "2d6+1" (fun i => [2, 4].getD i 0) = some r ∧
      r.rolls.length = (⟨2, 6, 1, "2d6+1"⟩ : DiceSpec).n ∧
      (∀ i : Nat, ∀ hi : i < r.rolls.length,
        r.rolls.get ⟨i, hi⟩ = 1 + (((fun i => [2, 4].getD i 0) i : Nat) : Int)) ∧
      (∀ x ∈ r.rolls, 1 ≤ x ∧ x ≤ ((⟨2, 6, 1, "2d6+1"⟩ : DiceSpec).m : Int)) ∧
      r.total = roundDoubleZ (r.rolls.foldl (· + ·) 0 +
        (⟨2, 6, 1, "2d6+1"⟩ : DiceSpec).mod) ∧
      ((r.rolls.foldl (· + ·) 0 + (⟨2, 6, 1, "2d6+1"⟩ : DiceSpec).mod).natAbs ≤ 2 ^ 53 →
        r.total = r.rolls.foldl (· + ·) 0 + (⟨2, 6, 1, "2d6+1"⟩ : DiceSpec).mod) ∧
      r.modifier = (⟨2, 6, 1, "2d6+1"⟩ : DiceSpec).mod ∧
      r.sides = (⟨2, 6, 1, "2d6+1"⟩ : DiceSpec).m ∧
      r.normText = (⟨2, 6, 1, "2d6+1"⟩ : DiceSpec).normText :=
  C3_roll_shape "2d6+1" ⟨2, 6, 1, "2d6+1"⟩ (fun i => [2, 4].getD i 0) rfl (by decide)

/-- C4 counterexample.  The claim says a successful treasure loss adds 2 to
madness.  Applying `loseTreasure` to a character with one treasure
(`treasureCount = 1`, "intact") and madness 0 leaves madness 1, not 2; the
code adds only 1 (App.tsx line 1421), and there is no probability roll and no
`treasureIntact` boolean — treasure is a counter that is decremented. -/
theorem C4_counterexample :
    ((loseTreasure ⟨[⟨1, "앨리스", "인형", 1, 0, 0⟩],
        ⟨.ok, .ok, .ok, .ok, .ok, .ok⟩, [], .explore, 3⟩ 1).characters.find?
      (fun x => x.id == 1)).map Character.madness = some 1 ∧
    ¬ ((loseTreasure ⟨[⟨1, "앨리스", "인형", 1, 0, 0⟩],
        ⟨.ok, .ok, .ok, .ok, .ok, .ok⟩, [], .explore, 3⟩ 1).characters.find?
      (fun x => x.id == 1)).map Character.madness = some (0 + 2) :=
  ⟨rfl, by decide⟩

/-- C4 (amended): whenever `loseTreasure` fires for a character that still
has a treasure (`treasureCount ≥ 1`) and nonnegative madness, it decrements
`treasureCount` by 1 and raises madness by 1 saturating at 10
(`min (madness + 1) 10`), leaving the parts state untouched. -/
theorem C4_lose_treasure (st : SimSt) (cid : Nat) (c : Character)
    (hfind : st.characters.find? (fun x => x.id == cid) = some c)
    (htc : 1 ≤ c.treasureCount) (hm : 0 ≤ c.madness) :
    (loseTreasure st cid).characters.find? (fun x => x.id == cid) =
      some { c with treasureCount := c.treasureCount - 1,
                    madness := min (c.madness + 1) 10 } ∧
    (loseTreasure st cid).parts = st.parts := by
  have hcid : c.id = cid := by
    have := List.find?_some hfind
    simpa using this
  unfold loseTreasure
  rw [hfind]
  dsimp only
  rw [if_neg (by omega)]
  have hchars : (updateCharLose st.characters cid (c.treasureCount - 1)
      (clamp (c.madness + 1) 0 10)).find? (fun x => x.id == cid) =
      some { c with treasureCount := c.treasureCount - 1,
                    madness := min (c.madness + 1) 10 } := by
    rw [find?_updateCharLose, hfind]
    dsimp only [Option.map]
    rw [if_pos hcid, clamp_eq_min c.madness hm]
  by_cases hnm : 10 ≤ clamp (c.madness + 1) 0 10
  · rw [if_pos hnm]
    exact ⟨hchars, rfl⟩
  · rw [if_neg hnm]
    exact ⟨hchars, rfl⟩

/-- Witness for C4 on a one-character roster with `treasureCount = 2`,
madness 5: treasure drops to 1 and madness rises to 6. -/
theorem C4_lose_treasure_witness :
    (loseTreasure ⟨[⟨7, "바니", "거울", 2, 0, 5⟩],
        ⟨.ok, .ok, .ok, .ok, .ok, .ok⟩, [], .horror, 3⟩ 7).characters.find?
      (fun x => x.id == 7) =
      some { (⟨7, "바니", "거울", 2, 0, 5⟩ : Character) with
        treasureCount := (2 : Int) - 1, madness := min ((5 : Int) + 1) 10 } ∧
    (loseTreasure ⟨[⟨7, "바니", "거울", 2, 0, 5⟩],
        ⟨.ok, .ok, .ok, .ok, .ok, .ok⟩, [], .horror, 3⟩ 7).parts =
      (⟨.ok, .ok, .ok, .ok, .ok, .ok⟩ : Parts) :=
  C4_lose_treasure _ 7 ⟨7, "바니", "거울", 2, 0, 5⟩ rfl (by decide) (by decide)

/-- C5: for every app state whose roster madness values all lie in `[0, 10]`
and every sequence of engine operations (scene/beat advancement with any
random source, madness checks with any die, treasure losses), every
character's madness stays in `[0, 10]`: every write the engine performs goes
through `clamp(·, 0, 10)`. -/
theorem C5_madness_invariant (st : SimSt) (ops : List EngineOp) (h : MadOK st) :
    MadOK (applyOps st ops) := by
  unfold applyOps
  induction ops generalizing st with
  | nil => exact h
  | cons op ops ih => exact ih (applyOp st op) (madOK_applyOp st op h)

/-- Witness for C5: a two-character roster driven through a horror scene,
a treasure loss and a direct madness check with crash-inducing oracles. -/
theorem C5_madness_invariant_witness :
    MadOK (applyOps ⟨[⟨1, "가", "인형", 1, 0, 9⟩, ⟨2, "나", "책", 0, -3, 10⟩],
        ⟨.ok, .ok, .ok, .ok, .ok, .ok⟩, [], .horror, 10⟩
      [.scene (fun _ => 0) 0, .lose 1, .mcheck 2 "광기" 1, .scene (fun n => n) 0]) :=
  C5_madness_invariant _ _ (by decide)

/-- C6 counterexample.  The claim says re-parsing the normalized form always
reproduces the spec, but for `|mod| ≥ 10^21` JS renders the modifier in
exponential notation (ECMA-262 `Number::toString`):
`1d6+1000000000000000000000` parses — the modifier `10^21` is finite and
exactly representable — yet normalizes to `1d6+1e+21`, whose modifier group
`1e+21` fails the digits-only regex, so the round trip returns `null`. -/
theorem C6_counterexample :
    parseDice "1d6+1000000000000000000000" =
      some ⟨1, 6, 1000000000000000000000, "1d6+1e+21"⟩ ∧
    parseDice ((⟨1, 6, 1000000000000000000000, "1d6+1e+21"⟩ : DiceSpec).normText) =
      none := by
  exact ⟨rfl, rfl⟩

/-- C6 (amended): parsing then normalizing is idempotent for every accepted
string whose modifier magnitude stays below `10^21` (the ECMA-262 threshold
up to which `Number::toString` renders integers in plain decimal):
re-parsing the normalized textual form succeeds and returns the identical
`DiceSpec` (same count, sides, modifier, and the same normalized text). -/
theorem C6_normalize_idempotent (s : String) (p : DiceSpec)
    (h : parseDice s = some p) (hsm : p.mod.natAbs < 10 ^ 21) :
    parseDice p.normText = some p := by
  obtain ⟨cs, ss, ms, hc, hn, hm, hmod, hpeq, hn1, hn2, hm1, hm2⟩ := parseDice_inv s p h
  obtain ⟨hsplit, hcsd, hssne, hssd, hmsd⟩ := parseCore_sound _ _ _ _ hc
  have hfix : jsNumN p.mod.natAbs = some p.mod.natAbs := by
    rcases hmsd with rfl | ⟨b, ds, hb, hdne, hdd, rfl⟩
    · have h00 : (some (0 : Int)) = some p.mod := hmod
      injection h00 with h00
      rw [← h00]
      exact jsNumN_small 0 (by norm_num)
    · rcases hb with rfl | rfl
      · have hmv : (jsNumN (digitsVal ds)).map (fun v => (v : Int)) = some p.mod := hmod
        cases hjs : jsNumN (digitsVal ds) with
        | none =>
          rw [hjs] at hmv
          exact absurd hmv (by simp)
        | some w =>
          rw [hjs] at hmv
          dsimp only [Option.map] at hmv
          injection hmv with hw
          have hna : p.mod.natAbs = w := by omega
          rw [hna]
          exact jsNumN_fix _ w hjs
      · have hmv : (jsNumN (digitsVal ds)).map (fun v => -(v : Int)) = some p.mod := hmod
        cases hjs : jsNumN (digitsVal ds) with
        | none =>
          rw [hjs] at hmv
          exact absurd hmv (by simp)
        | some w =>
          rw [hjs] at hmv
          dsimp only [Option.map] at hmv
          injection hmv with hw
          have hna : p.mod.natAbs = w := by omega
          rw [hna]
          exact jsNumN_fix _ w hjs
  rw [hpeq, parseDice_renderDice p.n p.m p.mod hn1 hn2 hm1 hm2 hsm hfix, ← hpeq]

/-- Witness for C6: the spec parsed from `2 D 6 + 1` normalizes to `2d6+1`,
which re-parses to itself. -/
theorem C6_normalize_idempotent_witness :
    parseDice ((⟨2, 6, 1, "2d6+1"⟩ : DiceSpec).normText) = some ⟨2, 6, 1, "2d6+1"⟩ :=
  C6_normalize_idempotent "2 D 6 + 1" ⟨2, 6, 1, "2d6+1"⟩ rfl (by decide)

/-- C7: the roll executor is pure with respect to the injected random
source: if two random sources agree on the draws actually consumed (the
first `count`), `rollDice` produces identical results. -/
theorem C7_roll_deterministic (s : String) (p : DiceSpec) (rng rng' : Nat → Nat)
    (hp : parseDice s = some p) (hagree : ∀ i, i < p.n → rng i = rng' i) :
    rollDice s rng = rollDice s rng' := by
  unfold rollDice
  rw [hp]
  dsimp only
  have hmap : (List.range p.n).map (fun i => 1 + (rng i : Int)) =
      (List.range p.n).map (fun i => 1 + (rng' i : Int)) := by
    apply List.map_congr_left
    intro i hi
    rw [List.mem_range] at hi
    rw [hagree i hi]
  rw [hmap]

/-- Witness for C7: two mocks that agree on the two consumed draws `[2, 4]`
but differ from the third draw on give identical `RollResult`s. -/
theorem C7_roll_deterministic_witness :
    rollDice "2d6+1" (fun i => [2, 4].getD i 0) =
      rollDice "2d6+1" (fun i => [2, 4].getD i 7) :=
  C7_roll_deterministic "2d6+1" ⟨2, 6, 1, "2d6+1"⟩ _ _ rfl (by decide)

/-- C8: advancing a scene with an empty roster is a no-op that only logs a
recoverable warning: roster, parts and scene settings are unchanged, the rng
cursor does not move (no roll is made), and the result does not depend on the
random source at all. -/
theorem C8_empty_roster_noop (st : SimSt) (rng rng' : Nat → Nat) (k : Nat)
    (h : st.characters = []) :
    (runScene st rng k).1.characters = st.characters ∧
    (runScene st rng k).1.parts = st.parts ∧
    (runScene st rng k).1.sceneType = st.sceneType ∧
    (runScene st rng k).1.checksInScene = st.checksInScene ∧
    (runScene st rng k).2 = k ∧
    (runScene st rng k).1.log =
      addLog st.log ⟨.SIM, "씬 진행 실패: 캐릭터가 없어."⟩ ∧
    runScene st rng k = runScene st rng' k := by
  have he : st.characters.isEmpty = true := by
    rw [h]
    rfl
  unfold runScene
  rw [if_pos he, if_pos he]
  exact ⟨rfl, rfl, rfl, rfl, rfl, rfl, rfl⟩

/-- Witness for C8 on a concrete empty-roster state and two different mocks. -/
theorem C8_empty_roster_noop_witness :
    (runScene ⟨[], ⟨.ok, .ok, .ok, .ok, .ok, .ok⟩, [], .explore, 3⟩
        (fun _ => 5) 0).1.characters = ([] : List Character) ∧
    (runScene ⟨[], ⟨.ok, .ok, .ok, .ok, .ok, .ok⟩, [], .explore, 3⟩
        (fun _ => 5) 0).1.parts = (⟨.ok, .ok, .ok, .ok, .ok, .ok⟩ : Parts) ∧
    (runScene ⟨[], ⟨.ok, .ok, .ok, .ok, .ok, .ok⟩, [], .explore, 3⟩
        (fun _ => 5) 0).1.sceneType = SceneType.explore ∧
    (runScene ⟨[], ⟨.ok, .ok, .ok, .ok, .ok, .ok⟩, [], .explore, 3⟩
        (fun _ => 5) 0).1.checksInScene = (3 : Int) ∧
    (runScene ⟨[], ⟨.ok, .ok, .ok, .ok, .ok, .ok⟩, [], .explore, 3⟩
        (fun _ => 5) 0).2 = 0 ∧
    (runScene ⟨[], ⟨.ok, .ok, .ok, .ok, .ok, .ok⟩, [], .explore, 3⟩
        (fun _ => 5) 0).1.log =
      addLog [] ⟨.SIM, "씬 진행 실패: 캐릭터가 없어."⟩ ∧
    runScene ⟨[], ⟨.ok, .ok, .ok, .ok, .ok, .ok⟩, [], .explore, 3⟩ (fun _ => 5) 0 =
      runScene ⟨[], ⟨.ok, .ok, .ok, .ok, .ok, .ok⟩, [], .explore, 3⟩ (fun _ => 9) 0 :=
  C8_empty_roster_noop ⟨[], ⟨.ok, .ok, .ok, .ok, .ok, .ok⟩, [], .explore, 3⟩
    (fun _ => 5) (fun _ => 9) 0 rfl

/-- C9: the manual part toggle wraps — one `togglePart` maps the slot by
Ok→Damaged, Damaged→Broken, Broken→Ok (so three toggles restore the slot) —
whereas the automated damage step (spec-modelled, absent from src/)
saturates at Broken and never yields Ok. -/
theorem C9_toggle_wraps_damage_saturates (st : SimSt) (key : PartKey) :
    ((togglePart st key).parts.get key = nextPartState (st.parts.get key)) ∧
    (nextPartState .ok = .damaged ∧ nextPartState .damaged = .broken ∧
      nextPartState .broken = .ok) ∧
    ((togglePart (togglePart (togglePart st key) key) key).parts.get key =
      st.parts.get key) ∧
    (partDamageStep .ok = .damaged ∧ partDamageStep .damaged = .broken ∧
      partDamageStep .broken = .broken) ∧
    (partDamageStep .ok ≠ .ok ∧ partDamageStep .damaged ≠ .ok ∧
      partDamageStep .broken ≠ .ok) := by
  refine ⟨?_, ⟨rfl, rfl, rfl⟩, ?_, ⟨rfl, rfl, rfl⟩, by decide, by decide, by decide⟩
  · unfold togglePart
    dsimp only
    exact Parts.get_set_same ..
  · unfold togglePart
    dsimp only
    rw [Parts.get_set_same, Parts.get_set_same, Parts.get_set_same]
    exact nextPartState_cycle _

/-- C10: the session log is bounded by 800 entries: appending via `addLog`
to a log of length at most 800 keeps it at most 800 entries, the result is a
suffix of `log ++ [e]` obtained by dropping the oldest entries, and the newly
appended entry is kept as the most recent one. -/
theorem C10_addLog_bounded (log : List LogEntry) (e : LogEntry)
    (h : log.length ≤ 800) :
    (addLog log e).length ≤ 800 ∧
    addLog log e = (log ++ [e]).drop (log.length + 1 - 800) ∧
    (addLog log e).getLast? = some e := by
  unfold addLog
  have hlen : (log ++ [e]).length = log.length + 1 := by simp
  by_cases hl : 800 < (log ++ [e]).length
  · rw [if_pos hl]
    have h800 : log.length = 800 := by omega
    refine ⟨?_, ?_, ?_⟩
    · rw [List.length_drop]
      omega
    · rw [hlen]
    · obtain ⟨a, l', rfl⟩ : ∃ a l', log = a :: l' := by
        cases log with
        | nil => simp at h800
        | cons a l' => exact ⟨a, l', rfl⟩
      rw [hlen]
      have : (a :: l').length + 1 - 800 = 1 := by omega
      rw [this, List.cons_append, List.drop_succ_cons, List.drop_zero]
      simp
  · rw [if_neg hl]
    have hz : log.length + 1 - 800 = 0 := by omega
    refine ⟨by omega, ?_, by simp⟩
    rw [hz, List.drop_zero]

set_option maxRecDepth 4096 in
/-- Witness for C10 at a full log of exactly 800 entries: the append drops
the single oldest entry and keeps the new entry last. -/
theorem C10_addLog_bounded_witness :
    (addLog (List.replicate 800 (⟨.SYS, "세션 시작"⟩ : LogEntry))
      (⟨.SIM, "새 항목"⟩ : LogEntry)).length ≤ 800 ∧
    addLog (List.replicate 800 (⟨.SYS, "세션 시작"⟩ : LogEntry))
        (⟨.SIM, "새 항목"⟩ : LogEntry) =
      (List.replicate 800 (⟨.SYS, "세션 시작"⟩ : LogEntry) ++
        [(⟨.SIM, "새 항목"⟩ : LogEntry)]).drop
        ((List.replicate 800 (⟨.SYS, "세션 시작"⟩ : LogEntry)).length + 1 - 800) ∧
    (addLog (List.replicate 800 (⟨.SYS, "세션 시작"⟩ : LogEntry))
      (⟨.SIM, "새 항목"⟩ : LogEntry)).getLast? =
      some (⟨.SIM, "새 항목"⟩ : LogEntry) :=
  C10_addLog_bounded (List.replicate 800 (⟨.SYS, "세션 시작"⟩ : LogEntry))
    (⟨.SIM, "새 항목"⟩ : LogEntry) (by simp)
